import Mathlib

/-!
Verification development for the DenisTetris game-state simulator
(`src/pos.rs`).  The Rust code is shallowly embedded: the board is a
`List (List Nat)` (row 0 on top), piece ids are `Nat` in `1..=7`,
`VecDeque` queues become `List`s whose head is the front, Rust `Vec`
bags become `List`s whose last element is popped, and the ambient
randomness of `thread_rng` (the shuffled refill of the 7-bag) is made
explicit as `refill` list parameters.  Fallible operations (indexing
that would panic out of bounds, `unwrap` on an empty queue) are
modelled with `Option` / an explicit `panic` result constructor.
The `f64` fields of `Features` only ever hold small non-negative
integers (counts bounded by 22·10 and exactly representable), so they
are modelled as `Nat`.
-/

namespace DenisTetris

def BOARD_WIDTH : Nat := 10
def BOARD_HEIGHT : Nat := 22

/-- The function `rotate_matrix` from `pos.rs`: `result[j][n - 1 - i] = matrix[i][j]`,
done here by direct indexing: entry `(j, c)` of the result is
`matrix[n - 1 - c][j]`. -/
def rotateMatrix (m : List (List Nat)) : List (List Nat) :=
  let n := m.length
  let cols := (m.getD 0 []).length
  (List.range cols).map (fun j => (List.range n).map (fun c => (m.getD (n - 1 - c) []).getD j 0))

/-- The seven canonical piece shapes (`piece_shapes` in `pos.rs`). -/
def pieceShapes : List (List (List Nat)) :=
  [ [[0, 0, 1], [1, 1, 1]],
    [[2, 0, 0], [2, 2, 2]],
    [[0, 3, 3], [3, 3, 0]],
    [[4, 4, 0], [0, 4, 4]],
    [[0, 5, 0], [5, 5, 5]],
    [[6, 6], [6, 6]],
    [[7, 7, 7, 7]] ]

/-- The four rotation states of a shape: the canonical shape followed by
three successive 90°-rotations (the `for _ in 1..4` loop in `pos.rs`). -/
def rotationsOf (s : List (List Nat)) : List (List (List Nat)) :=
  [s, rotateMatrix s, rotateMatrix (rotateMatrix s), rotateMatrix (rotateMatrix (rotateMatrix s))]

/-- The `PIECES` lookup table: `PIECES[id - 1][rotation]`. -/
def PIECES : List (List (List (List Nat))) := pieceShapes.map rotationsOf

/-- Lookup `&PIECES[pid - 1][rotation]`.  (For `pid ∈ 1..=7` and `rotation < 4`
this is exactly the Rust lookup; theorems carry those bounds as
hypotheses, since out-of-range indexing panics in Rust.) -/
def pieceShape (pid rotation : Nat) : List (List Nat) :=
  (PIECES.getD (pid - 1) []).getD rotation []

/-- Width `piece[0].len()`: the bounding-box width of a shape. -/
def pieceWidth (pid rotation : Nat) : Nat :=
  ((pieceShape pid rotation).getD 0 []).length

/-- Cell `piece[j][i]`. -/
def pieceCell (piece : List (List Nat)) (j i : Nat) : Nat :=
  (piece.getD j []).getD i 0

/-- The `Features` struct.  All four `f64` fields are integer-valued. -/
structure Features where
  holes : Nat
  bumpiness : Nat
  aggregate_height : Nat
  completed_lines : Nat
  deriving Repr, DecidableEq

/-- The `Position` struct.  `next_pieces` is the `VecDeque` with the
head of the list as its front; `bag` is the `Vec` whose last element is
popped by `random_piece`. -/
structure Position where
  score : Int
  current_piece : Nat
  next_pieces : List Nat
  pocket : Option Nat
  bag : List Nat
  lines : Nat
  board : List (List Nat)
  deriving Repr, DecidableEq

/-- Read `self.board[y][x]` as a total function (out-of-range reads default
to `0`; the checked accessor used by `apply_move` is `readCell`). -/
def cellAt (b : List (List Nat)) (y x : Nat) : Nat :=
  (b.getD y []).getD x 0

/-- The method `gen_legal_moves` from `pos.rs`: for each rotation, every fitting
column for the current piece, then (same rotation) every fitting column
for the pocket piece if present, otherwise for the front of the queue
if present. -/
def gen_legal_moves (p : Position) : List (Nat × Nat × Bool) :=
  (List.range 4).flatMap (fun rotation =>
    ((List.range (BOARD_WIDTH + 1 - pieceWidth p.current_piece rotation)).map
        (fun x => (x, rotation, false)))
      ++ (match p.pocket with
          | some pk =>
              (List.range (BOARD_WIDTH + 1 - pieceWidth pk rotation)).map
                (fun x => (x, rotation, true))
          | none =>
              match p.next_pieces.head? with
              | some np =>
                  (List.range (BOARD_WIDTH + 1 - pieceWidth np rotation)).map
                    (fun x => (x, rotation, true))
              | none => []))

/-- The swap-target piece of `gen_legal_moves`: the held piece if
present, otherwise the front of the queue. -/
def swapTarget (p : Position) : Option Nat :=
  match p.pocket with
  | some pk => some pk
  | none => p.next_pieces.head?

/-! ### Feature extraction (`features` in `pos.rs`) -/

/-- The inner `while y + l < BOARD_HEIGHT && self.board[y + l][x] == 0`
loop of `features`, as a fuel recursion (the fuel only needs to cover
the at most `BOARD_HEIGHT` iterations of the loop). -/
def emptyRunFrom (b : List (List Nat)) (x : Nat) : Nat → Nat → Nat
  | 0, _ => 0
  | fuel + 1, y =>
      if y < BOARD_HEIGHT ∧ cellAt b y x = 0 then emptyRunFrom b x fuel (y + 1) + 1 else 0

/-- Contribution of cell `(y, x)` to `holes`: when a filled cell sits
directly above an empty cell, `1` plus the run of empty cells below. -/
def holesAt (b : List (List Nat)) (x y : Nat) : Nat :=
  if cellAt b (y - 1) x ≠ 0 ∧ cellAt b y x = 0 then
    1 + emptyRunFrom b x BOARD_HEIGHT (y + 1)
  else 0

/-- The `holes` accumulator of `features`: `y` ranges over `1..22`. -/
def holesOf (b : List (List Nat)) : Nat :=
  ((List.range' 1 (BOARD_HEIGHT - 1)).map
    (fun y => ((List.range BOARD_WIDTH).map (fun x => holesAt b x y)).sum)).sum

/-- Counter `heights[x]` of `features`: the number of filled cells of column
`x` seen by the `y in 1..22` loop (row 0 is never visited). -/
def heightOf (b : List (List Nat)) (x : Nat) : Nat :=
  ((List.range' 1 (BOARD_HEIGHT - 1)).map (fun y => if cellAt b y x ≠ 0 then 1 else 0)).sum

/-- The `aggregate_height` accumulator of `features`. -/
def aggHeightOf (b : List (List Nat)) : Nat :=
  ((List.range' 1 (BOARD_HEIGHT - 1)).map
    (fun y => ((List.range BOARD_WIDTH).map
      (fun x => if cellAt b y x ≠ 0 then BOARD_HEIGHT - y else 0)).sum)).sum

/-- The `bumpiness` feature: `heights.windows(2)` gives the 9 adjacent column
pairs; `(window[0] - window[1]).abs()` on the integer-valued `f64`s is
`Nat.dist`. -/
def bumpinessOf (b : List (List Nat)) : Nat :=
  ((List.range (BOARD_WIDTH - 1)).map (fun i => Nat.dist (heightOf b i) (heightOf b (i + 1)))).sum

/-- The method `Position::features`. -/
def features (p : Position) : Features :=
  { holes := holesOf p.board
    bumpiness := bumpinessOf p.board
    aggregate_height := aggHeightOf p.board
    completed_lines := p.lines }

/-! ### The mutating operation `apply_move`

Rust's `apply_move` returns `Option<Position>` but can also panic
(`unwrap` on an empty queue, out-of-bounds indexing).  `MoveResult`
separates the three outcomes: `panic` for a Rust panic, `gameOver` for
Rust `None`, `ok` for `Some(position)`. -/

inductive MoveResult where
  | panic
  | gameOver
  | ok (p : Position)
  deriving Repr, DecidableEq

/-- The method `random_piece` from `pos.rs`.  `refill` stands for the value of the
shuffled `(1..8).collect()` used when the bag is empty; it is always a
permutation of `[1,…,7]` in Rust, in particular non-empty, so the
`unwrap` of `new_bag.pop()` never fails and the function is total
(the `getLastD 0` default is unreachable for non-empty refills). -/
def random_piece (bag refill : List Nat) : Nat × List Nat :=
  let new_bag := if bag.isEmpty then refill else bag
  (new_bag.getLastD 0, new_bag.dropLast)

/-- The queue/bag/pocket bookkeeping at the start of `apply_move`
(lines 160–190 of `pos.rs`): the unconditional `pop_front`, the
optional `random_piece` draw appended to the queue, and the three-way
choice of the piece to drop.  Returns
`(placed piece id, new current piece, new queue, new bag, new pocket)`,
or `none` where Rust panics on `pop_front().unwrap()`.
`r1` is the refill used by the first `self.random_piece()` call and
`r2` the one used by the second call in the `swap`/empty-pocket branch
(both calls draw from the *original* `self.bag`, as the source does). -/
def selStage (p : Position) (swap gen_next_piece : Bool) (r1 r2 : List Nat) :
    Option (Nat × Nat × List Nat × List Nat × Option Nat) :=
  match p.next_pieces with
  | [] => none
  | c1 :: q1 =>
    let g1 := random_piece p.bag r1
    let q2 := if gen_next_piece then q1 ++ [g1.1] else q1
    let bag2 := if gen_next_piece then g1.2 else p.bag
    if swap then
      match p.pocket with
      | some pk => some (pk, c1, q2, bag2, some p.current_piece)
      | none =>
        match q2 with
        | [] => none
        | c2 :: q3 =>
          let g2 := random_piece p.bag r2
          some (c1, c2, if gen_next_piece then q3 ++ [g2.1] else q3,
                if gen_next_piece then g2.2 else bag2, some p.current_piece)
    else some (p.current_piece, c1, q2, bag2, p.pocket)

/-- Checked cell read: `self.board[y][x]`, `none` when Rust panics. -/
def readCell (b : List (List Nat)) (y x : Nat) : Option Nat :=
  match b.get? y with
  | none => none
  | some row => row.get? x

/-- Checked cell write `board[y][x] = v` (callers establish the indices
are in range, matching Rust where an out-of-range write panics). -/
def setCell (b : List (List Nat)) (y x v : Nat) : List (List Nat) :=
  b.set y ((b.getD y []).set x v)

/-- An `Option`-valued short-circuit `any`: the first `none` (panic)
before a `some true` aborts, mirroring a Rust loop that indexes as it
tests and returns at the first hit. -/
def anyCheck : List α → (α → Option Bool) → Option Bool
  | [], _ => some false
  | a :: l, f =>
    match f a with
    | none => none
    | some true => some true
    | some false => anyCheck l f

/-- One landing test of the `apply_move` scan, for candidate row `y`
and piece-local cell `(i, j)`:
`y == BOARD_HEIGHT - size_y || (x + i < BOARD_WIDTH && piece[j][i] != 0 && self.board[j + y + 1][i + x] != 0)`
with Rust's short-circuit evaluation (the board is only read when the
first disjunct and the two guards have been passed). -/
def collideAt (b piece : List (List Nat)) (x y : Nat) (ij : Nat × Nat) : Option Bool :=
  if y = BOARD_HEIGHT - piece.length then some true
  else if x + ij.1 < BOARD_WIDTH ∧ pieceCell piece ij.2 ij.1 ≠ 0 then
    match readCell b (ij.2 + y + 1) (ij.1 + x) with
    | none => none
    | some v => some (v ≠ 0)
  else some false

/-- The `(i, j)` iteration order of the inner loops (`i` outer). -/
def pairList (piece : List (List Nat)) : List (Nat × Nat) :=
  (List.range (piece.getD 0 []).length).flatMap
    (fun i => (List.range piece.length).map (fun j => (i, j)))

inductive ScanResult where
  | panic
  | offBoard
  | landed (y : Nat)
  deriving Repr, DecidableEq

/-- The landing-row scan over candidate rows `ys`. -/
def scanGo (b piece : List (List Nat)) (x : Nat) : List Nat → ScanResult
  | [] => ScanResult.offBoard
  | y :: ys =>
    match anyCheck (pairList piece) (collideAt b piece x y) with
    | none => ScanResult.panic
    | some true => ScanResult.landed y
    | some false => scanGo b piece x ys

/-- Loop `for y in 0..((BOARD_HEIGHT + 1) - size_y)`: the landing-row
search of `apply_move`. -/
def scanLand (b piece : List (List Nat)) (x : Nat) : ScanResult :=
  scanGo b piece x (List.range (BOARD_HEIGHT + 1 - piece.length))

/-- The piece-placement loop (`// Place the piece`): for each piece
cell in loop order, read `new_board[y + j][x + i]` (a panicking index
in Rust) and overwrite it when it is empty and the piece cell is not. -/
def stampGo (piece : List (List Nat)) (x y : Nat) :
    List (Nat × Nat) → List (List Nat) → Option (List (List Nat))
  | [], b => some b
  | ij :: ps, b =>
    match readCell b (y + ij.2) (x + ij.1) with
    | none => none
    | some v =>
      stampGo piece x y ps
        (if v = 0 ∧ pieceCell piece ij.2 ij.1 ≠ 0 then
          setCell b (y + ij.2) (x + ij.1) (pieceCell piece ij.2 ij.1)
        else b)

def stampPiece (b piece : List (List Nat)) (x y : Nat) : Option (List (List Nat)) :=
  stampGo piece x y (pairList piece) b

/-- Test `new_board[j].iter().all(|&cell| cell != 0)`. -/
def fullRow (row : List Nat) : Bool :=
  row.all (fun cell => decide (cell ≠ 0))

/-- The `// Update lines` loop: scan the rows top to bottom; a full row
is removed and an empty row is inserted on top; the scan continues at
the next index. -/
def clearGo : List Nat → List (List Nat) × Nat → Option (List (List Nat) × Nat)
  | [], st => some st
  | j :: js, (b, cnt) =>
    match b.get? j with
    | none => none
    | some row =>
      if fullRow row then
        clearGo js (List.replicate BOARD_WIDTH 0 :: b.eraseIdx j, cnt + 1)
      else clearGo js (b, cnt)

def clearLines (b : List (List Nat)) : Option (List (List Nat) × Nat) :=
  clearGo (List.range BOARD_HEIGHT) (b, 0)

/-- The score table of `apply_move` (`match line_count`). -/
def scoreFor (line_count : Nat) : Int :=
  match line_count with
  | 1 => 40
  | 2 => 100
  | 3 => 300
  | 4 => 1200
  | _ => 0

/-- The `// Check game over` loop, with Rust's short-circuit `||` and
panicking indexing of rows 0 and 1. -/
def gameOverCheck (b : List (List Nat)) : Option Bool :=
  anyCheck (List.range BOARD_WIDTH) (fun i =>
    match readCell b 0 i with
    | none => none
    | some v0 =>
      if v0 ≠ 0 then some true
      else
        match readCell b 1 i with
        | none => none
        | some v1 => some (v1 ≠ 0))

/-- The placement part of `apply_move` (lines 192–255): landing scan,
stamp, line clearing, scoring, game-over check, and assembly of the
result.  The fall-through `None` of the exhausted scan is `gameOver`
(Rust returns the same `None` for both). -/
def dropPiece (board : List (List Nat)) (score : Int) (lines : Nat)
    (piece : List (List Nat)) (x : Nat)
    (cur : Nat) (q : List Nat) (bag : List Nat) (pk : Option Nat) : MoveResult :=
  match scanLand board piece x with
  | ScanResult.panic => MoveResult.panic
  | ScanResult.offBoard => MoveResult.gameOver
  | ScanResult.landed y =>
    match stampPiece board piece x y with
    | none => MoveResult.panic
    | some b1 =>
      match clearLines b1 with
      | none => MoveResult.panic
      | some (b2, cnt) =>
        match gameOverCheck b2 with
        | none => MoveResult.panic
        | some true => MoveResult.gameOver
        | some false =>
          MoveResult.ok
            { score := score + scoreFor cnt
              current_piece := cur
              next_pieces := q
              pocket := pk
              bag := bag
              lines := lines + cnt
              board := b2 }

/-- The method `Position::apply_move(x, rotation, swap, gen_next_piece)`. -/
def apply_move (p : Position) (x rotation : Nat) (swap gen_next_piece : Bool)
    (r1 r2 : List Nat) : MoveResult :=
  match selStage p swap gen_next_piece r1 r2 with
  | none => MoveResult.panic
  | some (pid, cur, q, bag, pk) =>
    dropPiece p.board p.score p.lines (pieceShape pid rotation) x cur q bag pk

/-! ### Observers on `MoveResult` (projections of a successful apply) -/

def resultLines : MoveResult → Option Nat
  | MoveResult.ok p => some p.lines
  | _ => none

def resultScore : MoveResult → Option Int
  | MoveResult.ok p => some p.score
  | _ => none

def resultNext : MoveResult → Option (List Nat)
  | MoveResult.ok p => some p.next_pieces
  | _ => none

def resultBag : MoveResult → Option (List Nat)
  | MoveResult.ok p => some p.bag
  | _ => none

/-! ### Well-formedness of boards and positions -/

/-- The board invariant of the spec: `H × W` grid. -/
def BoardOK (b : List (List Nat)) : Prop :=
  b.length = BOARD_HEIGHT ∧ ∀ row ∈ b, row.length = BOARD_WIDTH

/-- Cell codes are in `0..=7`. -/
def CellsOK (b : List (List Nat)) : Prop :=
  ∀ row ∈ b, ∀ c ∈ row, c ≤ 7

instance (b : List (List Nat)) : Decidable (BoardOK b) := by
  unfold BoardOK; infer_instance

instance (b : List (List Nat)) : Decidable (CellsOK b) := by
  unfold CellsOK; infer_instance

/-! ### Concrete boards and positions used as inputs below -/

def emptyBoard : List (List Nat) := List.replicate BOARD_HEIGHT (List.replicate BOARD_WIDTH 0)

/-- A board whose bottom five rows are already full (such a board can
only be reached through wholesale Position injection, which the spec
allows verbatim). -/
def cexBoard2 : List (List Nat) :=
  List.replicate 17 (List.replicate 10 0) ++ List.replicate 5 (List.replicate 10 1)

def cexPos2 : Position :=
  { score := 0, current_piece := 6, next_pieces := [1], pocket := none,
    bag := [], lines := 0, board := cexBoard2 }

def cexPos4 : Position :=
  { score := 0, current_piece := 5, next_pieces := [1, 2], pocket := none,
    bag := [3], lines := 0, board := emptyBoard }

/-- A board whose only filled cell is in the spawn row 0. -/
def cexBoard8 : List (List Nat) :=
  (1 :: List.replicate 9 0) :: List.replicate 21 (List.replicate 10 0)

def cexPos8 : Position :=
  { score := 0, current_piece := 1, next_pieces := [], pocket := none,
    bag := [], lines := 0, board := cexBoard8 }

def cexPos9 : Position :=
  { score := 0, current_piece := 5, next_pieces := [1], pocket := none,
    bag := [2, 3], lines := 0, board := emptyBoard }

/-- A well-formed mid-game position used to instantiate theorems. -/
def witPos : Position :=
  { score := 0, current_piece := 1, next_pieces := [2, 3, 4, 5], pocket := none,
    bag := [6, 7], lines := 0, board := emptyBoard }

/-- Same pieces as `witPos` but on a completely full board with other
score/lines/bag (for the non-interference of `gen_legal_moves`). -/
def witPosFull : Position :=
  { score := 999, current_piece := 1, next_pieces := [2], pocket := none,
    bag := [], lines := 42, board := List.replicate BOARD_HEIGHT (List.replicate BOARD_WIDTH 1) }

/-! ### Spec-side definitions (written from the claims' words, for
comparison with the code-side functions above) -/

/-- Claim C7's count: the number of board cells `(y, x)` with `y ≥ 1`
that are empty and lie strictly below at least one filled cell of the
same column. -/
def specHoles (b : List (List Nat)) : Nat :=
  ((List.range BOARD_WIDTH).map (fun x =>
    (List.range BOARD_HEIGHT).countP (fun y =>
      decide (1 ≤ y ∧ cellAt b y x = 0 ∧ ∃ v < y, cellAt b v x ≠ 0)))).sum

/-- Claim C8's per-column fill count as stated: filled cells anywhere
in the column, over all 22 rows. -/
def fillCountAllRows (b : List (List Nat)) (x : Nat) : Nat :=
  (List.range BOARD_HEIGHT).countP (fun y => decide (cellAt b y x ≠ 0))

/-- Claim C8's bumpiness as stated (all 22 rows per column). -/
def bumpinessAllRows (b : List (List Nat)) : Nat :=
  ((List.range (BOARD_WIDTH - 1)).map
    (fun i => Nat.dist (fillCountAllRows b i) (fillCountAllRows b (i + 1)))).sum

/-- Per-column fill count over the rows the code actually scans
(`y in 1..22`, the spawn row 0 excluded): the amended claim C8. -/
def fillCountBelowSpawn (b : List (List Nat)) (x : Nat) : Nat :=
  (List.range BOARD_HEIGHT).countP (fun y => decide (1 ≤ y ∧ cellAt b y x ≠ 0))

/-- Bumpiness computed from `fillCountBelowSpawn` (amended claim C8). -/
def bumpinessBelowSpawn (b : List (List Nat)) : Nat :=
  ((List.range (BOARD_WIDTH - 1)).map
    (fun i => Nat.dist (fillCountBelowSpawn b i) (fillCountBelowSpawn b (i + 1)))).sum

/-- Holds (`true`) iff some cell of row 0 or row 1 is occupied (the game-over
condition of `apply_move`, as a pure predicate). -/
def topTwoOccupied (b : List (List Nat)) : Bool :=
  (List.range BOARD_WIDTH).any (fun i => decide (cellAt b 0 i ≠ 0) || decide (cellAt b 1 i ≠ 0))

/-! ### Helper functions for the hole-count proof -/

/-- Number of zeros in a column list. -/
def countZeros (l : List Nat) : Nat := l.countP (fun c => decide (c = 0))

/-- Leading zeros of a column list. -/
def runZeros : List Nat → Nat
  | [] => 0
  | c :: t => if c = 0 then runZeros t + 1 else 0

/-- Zeros strictly after the first non-zero entry of a column list. -/
def zerosAfterFill (l : List Nat) : Nat :=
  match l.dropWhile (fun c => decide (c = 0)) with
  | [] => 0
  | _ :: t => countZeros t

/-- Pure version of one landing test (what `collideAt` computes when no
index is out of range). -/
def collideCond (b piece : List (List Nat)) (x y : Nat) (ij : Nat × Nat) : Bool :=
  decide (y = BOARD_HEIGHT - piece.length) ||
    (decide (x + ij.1 < BOARD_WIDTH) && decide (pieceCell piece ij.2 ij.1 ≠ 0) &&
      decide (cellAt b (ij.2 + y + 1) (ij.1 + x) ≠ 0))

/-- One-step write discipline on boards: every cell is unchanged, or
was empty and now holds a non-zero code `≤ 7`. -/
def StampLe (b1 b2 : List (List Nat)) : Prop :=
  ∀ r c, cellAt b2 r c = cellAt b1 r c ∨
    (cellAt b1 r c = 0 ∧ cellAt b2 r c ≠ 0 ∧ cellAt b2 r c ≤ 7)

/-- A position holding a piece in the pocket (for hold-swap instances). -/
def witPosPocket : Position :=
  { score := 0, current_piece := 1, next_pieces := [4], pocket := some 2,
    bag := [6, 7], lines := 0, board := emptyBoard }

/-- A position with an empty queue (for the queue-underflow instances). -/
def witPosEmptyQ : Position :=
  { score := 0, current_piece := 1, next_pieces := [], pocket := none,
    bag := [6, 7], lines := 0, board := emptyBoard }

end DenisTetris

namespace DenisTetris

theorem zerosAfterFill_cons_zero (l : List Nat) : zerosAfterFill (0 :: l) = zerosAfterFill l := by
  simp [zerosAfterFill, List.dropWhile]

theorem zerosAfterFill_cons_ne (c : Nat) (l : List Nat) (h : c ≠ 0) :
    zerosAfterFill (c :: l) = countZeros l := by
  simp [zerosAfterFill, List.dropWhile, h]

theorem countZeros_cons (c : Nat) (l : List Nat) :
    countZeros (c :: l) = countZeros l + if c = 0 then 1 else 0 := by
  simp [countZeros, List.countP_cons]

theorem runZeros_add_zerosAfterFill (l : List Nat) :
    runZeros l + zerosAfterFill l = countZeros l := by
  induction l with
  | nil => rfl
  | cons c t ih =>
    by_cases h : c = 0
    · subst h
      simp [runZeros, zerosAfterFill_cons_zero, countZeros_cons]
      omega
    · simp [runZeros, zerosAfterFill_cons_ne c t h, countZeros_cons, h]

theorem emptyRunFrom_eq (b : List (List Nat)) (x : Nat) :
    ∀ fuel y, BOARD_HEIGHT ≤ y + fuel →
      emptyRunFrom b x fuel y =
        runZeros ((List.range' y (BOARD_HEIGHT - y)).map (fun v => cellAt b v x)) := by
  intro fuel
  induction fuel with
  | zero =>
    intro y hy
    have h0 : BOARD_HEIGHT - y = 0 := by omega
    simp [emptyRunFrom, h0, runZeros]
  | succ fuel ih =>
    intro y hy
    by_cases hlt : y < BOARD_HEIGHT
    · have hsub : BOARD_HEIGHT - y = (BOARD_HEIGHT - (y + 1)) + 1 := by omega
      rw [hsub, List.range'_succ, List.map_cons]
      by_cases hc : cellAt b y x = 0
      · have hstep : emptyRunFrom b x (fuel + 1) y = emptyRunFrom b x fuel (y + 1) + 1 := by
          simp [emptyRunFrom, hlt, hc]
        rw [hstep, ih (y + 1) (by omega)]
        simp [runZeros, hc]
      · simp [emptyRunFrom, hc, runZeros]
    · have h0 : BOARD_HEIGHT - y = 0 := by omega
      simp [emptyRunFrom, hlt, h0, runZeros]

theorem specCol (f : Nat → Nat) :
    ∀ n s,
      (List.range' s n).countP (fun y => decide (f y = 0 ∧ ∃ v < y, f v ≠ 0)) =
        if ∃ v < s, f v ≠ 0 then countZeros ((List.range' s n).map f)
        else zerosAfterFill ((List.range' s n).map f) := by
  intro n
  induction n with
  | zero =>
    intro s
    simp [countZeros, zerosAfterFill]
  | succ n ih =>
    intro s
    rw [List.range'_succ, List.countP_cons, List.map_cons, ih (s + 1)]
    by_cases hseen : ∃ v < s, f v ≠ 0
    · have hseen' : ∃ v < s + 1, f v ≠ 0 := by
        obtain ⟨v, hv, hf⟩ := hseen; exact ⟨v, by omega, hf⟩
      rw [if_pos hseen, if_pos hseen', countZeros_cons]
      by_cases hfs : f s = 0
      · simp [hfs, hseen]
      · simp [hfs, hseen]
    · have hterm : (decide (f s = 0 ∧ ∃ v < s, f v ≠ 0)) = false := by
        simp only [decide_eq_false_iff_not]
        rintro ⟨hfs0, v, hv, hne⟩
        exact hseen ⟨v, hv, hne⟩
      rw [hterm, if_neg hseen]
      by_cases hfs : f s = 0
      · have hseen' : ¬ ∃ v < s + 1, f v ≠ 0 := by
          rintro ⟨v, hv, hf⟩
          rcases Nat.lt_succ_iff_lt_or_eq.mp hv with h | h
          · exact hseen ⟨v, h, hf⟩
          · subst h; exact hf hfs
        rw [if_neg hseen', hfs, zerosAfterFill_cons_zero]
        simp
      · have hseen' : ∃ v < s + 1, f v ≠ 0 := ⟨s, by omega, hfs⟩
        rw [if_pos hseen', zerosAfterFill_cons_ne _ _ hfs]
        simp

theorem codeCol (f : Nat → Nat) :
    ∀ n s, 1 ≤ s → s + n = BOARD_HEIGHT →
      ((List.range' s n).map (fun y =>
          if f (y - 1) ≠ 0 ∧ f y = 0 then
            1 + runZeros ((List.range' (y + 1) (BOARD_HEIGHT - (y + 1))).map f)
          else 0)).sum =
        if f (s - 1) ≠ 0 then countZeros ((List.range' s n).map f)
        else zerosAfterFill ((List.range' s n).map f) := by
  intro n
  induction n with
  | zero =>
    intro s h1 h2
    simp [countZeros, zerosAfterFill]
  | succ n ih =>
    intro s h1 h2
    rw [List.range'_succ, List.map_cons, List.map_cons, List.sum_cons,
      ih (s + 1) (by omega) (by omega)]
    have hs1 : s + 1 - 1 = s := by omega
    have hn : BOARD_HEIGHT - (s + 1) = n := by omega
    rw [hs1, hn]
    by_cases hprev : f (s - 1) ≠ 0
    · by_cases hfs : f s = 0
      · rw [if_pos (And.intro hprev hfs), if_pos hprev, countZeros_cons,
          if_neg (show ¬ f s ≠ 0 by simp [hfs]), if_pos hfs]
        have := runZeros_add_zerosAfterFill ((List.range' (s + 1) n).map f)
        omega
      · rw [if_neg (show ¬ (f (s - 1) ≠ 0 ∧ f s = 0) by tauto), if_pos hprev, countZeros_cons,
          if_pos (show f s ≠ 0 from hfs), if_neg hfs]
        omega
    · by_cases hfs : f s = 0
      · rw [if_neg (show ¬ (f (s - 1) ≠ 0 ∧ f s = 0) by tauto), if_neg hprev,
          if_neg (show ¬ f s ≠ 0 by simp [hfs]), hfs, zerosAfterFill_cons_zero]
        omega
      · rw [if_neg (show ¬ (f (s - 1) ≠ 0 ∧ f s = 0) by tauto), if_neg hprev,
          if_pos (show f s ≠ 0 from hfs), zerosAfterFill_cons_ne _ _ hfs]
        omega

theorem sum_map_zero {α : Type} (l : List α) : (l.map (fun _ => (0 : Nat))).sum = 0 := by
  induction l with
  | nil => rfl
  | cons a l ih => simp [ih]

theorem sum_map_add {α : Type} (l : List α) (g h : α → Nat) :
    (l.map (fun a => g a + h a)).sum = (l.map g).sum + (l.map h).sum := by
  induction l with
  | nil => rfl
  | cons a l ih => simp [ih]; omega

theorem sum_map_swap {α β : Type} (l1 : List α) (l2 : List β) (f : α → β → Nat) :
    (l1.map (fun a => (l2.map (f a)).sum)).sum =
      (l2.map (fun b => (l1.map (fun a => f a b)).sum)).sum := by
  induction l1 with
  | nil => simp [sum_map_zero]
  | cons a l1 ih =>
    rw [List.map_cons, List.sum_cons, ih, ← sum_map_add]
    congr 1

theorem colHoles_eq_countP (b : List (List Nat)) (x : Nat) :
    ((List.range' 1 (BOARD_HEIGHT - 1)).map (fun y => holesAt b x y)).sum =
      (List.range BOARD_HEIGHT).countP (fun y =>
        decide (1 ≤ y ∧ cellAt b y x = 0 ∧ ∃ v < y, cellAt b v x ≠ 0)) := by
  have hmap : ((List.range' 1 (BOARD_HEIGHT - 1)).map (fun y => holesAt b x y)) =
      ((List.range' 1 (BOARD_HEIGHT - 1)).map (fun y =>
        if cellAt b (y - 1) x ≠ 0 ∧ cellAt b y x = 0 then
          1 + runZeros ((List.range' (y + 1) (BOARD_HEIGHT - (y + 1))).map
            (fun v => cellAt b v x))
        else 0)) := by
    apply List.map_congr_left
    intro y _
    unfold holesAt
    rw [emptyRunFrom_eq b x BOARD_HEIGHT (y + 1) (Nat.le_add_left _ _)]
  rw [hmap, codeCol (fun v => cellAt b v x) (BOARD_HEIGHT - 1) 1 (by decide) (by decide)]
  have hrange : List.range BOARD_HEIGHT = 0 :: List.range' 1 (BOARD_HEIGHT - 1) := by
    rw [List.range_eq_range']
    rfl
  rw [hrange, List.countP_cons]
  have h0 : (decide (1 ≤ 0 ∧ cellAt b 0 x = 0 ∧ ∃ v < 0, cellAt b v x ≠ 0)) = false := by
    simp
  rw [h0]
  have hcongr : (List.range' 1 (BOARD_HEIGHT - 1)).countP (fun y =>
      decide (1 ≤ y ∧ cellAt b y x = 0 ∧ ∃ v < y, cellAt b v x ≠ 0)) =
      (List.range' 1 (BOARD_HEIGHT - 1)).countP (fun y =>
      decide (cellAt b y x = 0 ∧ ∃ v < y, cellAt b v x ≠ 0)) := by
    apply List.countP_congr
    intro y hy
    have h1 : 1 ≤ y := (List.mem_range'_1.mp hy).1
    simp [h1]
  rw [show ((List.range' 1 (BOARD_HEIGHT - 1)).countP (fun y =>
      decide (1 ≤ y ∧ cellAt b y x = 0 ∧ ∃ v < y, cellAt b v x ≠ 0)) +
        if false = true then 1 else 0) =
      (List.range' 1 (BOARD_HEIGHT - 1)).countP (fun y =>
      decide (1 ≤ y ∧ cellAt b y x = 0 ∧ ∃ v < y, cellAt b v x ≠ 0)) from by simp]
  rw [hcongr, specCol (fun v => cellAt b v x) (BOARD_HEIGHT - 1) 1]
  have hiff : (∃ v < 1, cellAt b v x ≠ 0) ↔ cellAt b 0 x ≠ 0 := by
    constructor
    · rintro ⟨v, hv, hne⟩
      have : v = 0 := by omega
      subst this; exact hne
    · intro h; exact ⟨0, by omega, h⟩
  by_cases h00 : cellAt b 0 x ≠ 0
  · rw [if_pos h00, if_pos (hiff.mpr h00)]
  · rw [if_neg h00, if_neg (fun hc => h00 (hiff.mp hc))]

theorem holesOf_eq_specHoles (b : List (List Nat)) : holesOf b = specHoles b := by
  have h1 : holesOf b =
      ((List.range BOARD_WIDTH).map (fun x =>
        ((List.range' 1 (BOARD_HEIGHT - 1)).map (fun y => holesAt b x y)).sum)).sum :=
    sum_map_swap (List.range' 1 (BOARD_HEIGHT - 1)) (List.range BOARD_WIDTH)
      (fun y x => holesAt b x y)
  rw [h1]
  unfold specHoles
  apply congrArg
  apply List.map_congr_left
  intro x _
  exact colHoles_eq_countP b x

end DenisTetris


namespace DenisTetris

theorem getD_set_self {α : Type} (l : List α) (i : Nat) (a d : α) (h : i < l.length) :
    (l.set i a).getD i d = a := by
  rw [List.getD_eq_getElem?_getD, List.getElem?_set_self h]
  rfl

theorem getD_set_ne {α : Type} (l : List α) (i j : Nat) (a d : α) (h : i ≠ j) :
    (l.set i a).getD j d = l.getD j d := by
  rw [List.getD_eq_getElem?_getD, List.getElem?_set_ne h, ← List.getD_eq_getElem?_getD]

theorem boardOK_rowLen {b : List (List Nat)} (hb : BoardOK b) {y : Nat} (hy : y < BOARD_HEIGHT) :
    (b.getD y []).length = BOARD_WIDTH := by
  obtain ⟨hlen, hrows⟩ := hb
  have hy' : y < b.length := by omega
  rw [List.getD_eq_getElem _ _ hy']
  exact hrows _ (List.getElem_mem hy')

theorem readCell_in {b : List (List Nat)} (hlen : b.length = BOARD_HEIGHT)
    (hrow : ∀ r, r < BOARD_HEIGHT → (b.getD r []).length = BOARD_WIDTH)
    {y x : Nat} (hy : y < BOARD_HEIGHT) (hx : x < BOARD_WIDTH) :
    readCell b y x = some (cellAt b y x) := by
  have hy' : y < b.length := by omega
  have hxr : x < (b.getD y []).length := by rw [hrow y hy]; omega
  have hbg : b.getD y [] = b[y] := List.getD_eq_getElem _ _ hy'
  have hxr' : x < b[y].length := by rw [← hbg]; exact hxr
  unfold readCell
  rw [List.get?_eq_getElem?, List.getElem?_eq_getElem hy']
  change b[y].get? x = some (cellAt b y x)
  rw [List.get?_eq_getElem?, List.getElem?_eq_getElem hxr']
  unfold cellAt
  rw [hbg, List.getD_eq_getElem _ _ hxr']

theorem setCell_length (b : List (List Nat)) (y x v : Nat) :
    (setCell b y x v).length = b.length := by
  unfold setCell
  exact List.length_set b y _

theorem setCell_rowLen (b : List (List Nat)) (y x v r : Nat) :
    ((setCell b y x v).getD r []).length = (b.getD r []).length := by
  unfold setCell
  by_cases h : y = r
  · subst h
    by_cases hl : y < b.length
    · rw [getD_set_self _ _ _ _ hl, List.length_set]
    · rw [List.set_eq_of_length_le (by omega)]
  · rw [getD_set_ne _ _ _ _ _ h]

theorem cellAt_setCell_same {b : List (List Nat)} {y x : Nat} (v : Nat)
    (hy : y < b.length) (hx : x < (b.getD y []).length) :
    cellAt (setCell b y x v) y x = v := by
  unfold setCell cellAt
  rw [getD_set_self _ _ _ _ hy, getD_set_self _ _ _ _ hx]

theorem cellAt_setCell_ne {b : List (List Nat)} {y x y' x' : Nat} (v : Nat)
    (h : ¬(y' = y ∧ x' = x)) :
    cellAt (setCell b y x v) y' x' = cellAt b y' x' := by
  unfold setCell cellAt
  by_cases hy : y = y'
  · subst hy
    have hx : x ≠ x' := fun hc => h ⟨rfl, hc.symm⟩
    by_cases hl : y < b.length
    · rw [getD_set_self _ _ _ _ hl, getD_set_ne _ _ _ _ _ hx]
    · rw [List.set_eq_of_length_le (by omega)]
  · rw [getD_set_ne _ _ _ _ _ hy]

theorem StampLe_refl (b : List (List Nat)) : StampLe b b := fun _ _ => Or.inl rfl

theorem StampLe_trans {b1 b2 b3 : List (List Nat)} (h12 : StampLe b1 b2) (h23 : StampLe b2 b3) :
    StampLe b1 b3 := by
  intro r c
  rcases h23 r c with h3 | ⟨h20, h3ne, h3le⟩
  · rcases h12 r c with h2 | ⟨h10, h2ne, h2le⟩
    · exact Or.inl (h3.trans h2)
    · exact Or.inr ⟨h10, by rw [h3]; exact h2ne, by rw [h3]; exact h2le⟩
  · rcases h12 r c with h2 | ⟨h10, h2ne, h2le⟩
    · exact Or.inr ⟨by rw [← h2]; exact h20, h3ne, h3le⟩
    · exact absurd h20 h2ne

theorem stampGo_ok (piece : List (List Nat)) (x y : Nat)
    (hpc : ∀ j i, pieceCell piece j i ≤ 7) :
    ∀ (ps : List (Nat × Nat)) (acc : List (List Nat)),
      acc.length = BOARD_HEIGHT →
      (∀ r, r < BOARD_HEIGHT → (acc.getD r []).length = BOARD_WIDTH) →
      (∀ ij ∈ ps, y + ij.2 < BOARD_HEIGHT ∧ x + ij.1 < BOARD_WIDTH) →
      ∃ b', stampGo piece x y ps acc = some b' ∧ b'.length = BOARD_HEIGHT ∧
        (∀ r, r < BOARD_HEIGHT → (b'.getD r []).length = BOARD_WIDTH) ∧ StampLe acc b' := by
  intro ps
  induction ps with
  | nil =>
    intro acc h1 h2 _
    exact ⟨acc, rfl, h1, h2, StampLe_refl acc⟩
  | cons ij ps ih =>
    intro acc h1 h2 hps
    obtain ⟨hyb, hxb⟩ := hps ij (List.mem_cons_self ij ps)
    have hread : readCell acc (y + ij.2) (x + ij.1) = some (cellAt acc (y + ij.2) (x + ij.1)) :=
      readCell_in h1 h2 hyb hxb
    set acc' := (if cellAt acc (y + ij.2) (x + ij.1) = 0 ∧ pieceCell piece ij.2 ij.1 ≠ 0 then
        setCell acc (y + ij.2) (x + ij.1) (pieceCell piece ij.2 ij.1)
      else acc) with hacc'
    have hstep : stampGo piece x y (ij :: ps) acc = stampGo piece x y ps acc' := by
      show (match readCell acc (y + ij.2) (x + ij.1) with
        | none => none
        | some v =>
          stampGo piece x y ps
            (if v = 0 ∧ pieceCell piece ij.2 ij.1 ≠ 0 then
              setCell acc (y + ij.2) (x + ij.1) (pieceCell piece ij.2 ij.1)
            else acc)) = stampGo piece x y ps acc'
      rw [hread]
    have h1' : acc'.length = BOARD_HEIGHT := by
      rw [hacc']
      by_cases hc : cellAt acc (y + ij.2) (x + ij.1) = 0 ∧ pieceCell piece ij.2 ij.1 ≠ 0
      · rw [if_pos hc, setCell_length]; exact h1
      · rw [if_neg hc]; exact h1
    have h2' : ∀ r, r < BOARD_HEIGHT → (acc'.getD r []).length = BOARD_WIDTH := by
      intro r hr
      rw [hacc']
      by_cases hc : cellAt acc (y + ij.2) (x + ij.1) = 0 ∧ pieceCell piece ij.2 ij.1 ≠ 0
      · rw [if_pos hc, setCell_rowLen]; exact h2 r hr
      · rw [if_neg hc]; exact h2 r hr
    have hP : StampLe acc acc' := by
      intro r c
      rw [hacc']
      by_cases hc : cellAt acc (y + ij.2) (x + ij.1) = 0 ∧ pieceCell piece ij.2 ij.1 ≠ 0
      · rw [if_pos hc]
        by_cases hrc : r = y + ij.2 ∧ c = x + ij.1
        · obtain ⟨hr, hcc⟩ := hrc
          subst hr; subst hcc
          rw [cellAt_setCell_same _ (by omega)
            (by rw [h2 _ hyb]; omega)]
          exact Or.inr ⟨hc.1, hc.2, hpc ij.2 ij.1⟩
        · rw [cellAt_setCell_ne _ hrc]
          exact Or.inl rfl
      · rw [if_neg hc]
        exact Or.inl rfl
    obtain ⟨b', hb', hb1, hb2, hbP⟩ := ih acc' h1' h2'
      (fun a ha => hps a (List.mem_cons_of_mem _ ha))
    exact ⟨b', by rw [hstep]; exact hb', hb1, hb2, StampLe_trans hP hbP⟩

end DenisTetris

namespace DenisTetris

theorem anyCheck_eq_any {α : Type} (l : List α) (f : α → Option Bool) (g : α → Bool)
    (h : ∀ a ∈ l, f a = some (g a)) : anyCheck l f = some (l.any g) := by
  induction l with
  | nil => rfl
  | cons a l ih =>
    unfold anyCheck
    rw [h a (List.mem_cons_self a l)]
    cases hg : g a with
    | true => simp [hg]
    | false =>
      simp only [List.any_cons, hg, Bool.false_or]
      exact ih (fun a ha => h a (List.mem_cons_of_mem _ ha))

theorem collideAt_some {b piece : List (List Nat)} {x y : Nat}
    (hlen : b.length = BOARD_HEIGHT)
    (hrow : ∀ r, r < BOARD_HEIGHT → (b.getD r []).length = BOARD_WIDTH)
    (hy : y < BOARD_HEIGHT + 1 - piece.length) (hpl : piece.length ≤ BOARD_HEIGHT)
    (ij : Nat × Nat) (hj : ij.2 < piece.length) :
    collideAt b piece x y ij = some (collideCond b piece x y ij) := by
  have hBH : BOARD_HEIGHT = 22 := rfl
  by_cases h1 : y = BOARD_HEIGHT - piece.length
  · unfold collideAt collideCond
    rw [if_pos h1]
    simp [h1]
  · by_cases h2 : x + ij.1 < BOARD_WIDTH ∧ pieceCell piece ij.2 ij.1 ≠ 0
    · have hyy : ij.2 + y + 1 < BOARD_HEIGHT := by omega
      have hxx : ij.1 + x < BOARD_WIDTH := by omega
      unfold collideAt
      rw [if_neg h1, if_pos h2, readCell_in hlen hrow hyy hxx]
      unfold collideCond
      simp [h1, h2.1, h2.2]
    · unfold collideAt collideCond
      rw [if_neg h1, if_neg h2]
      have hab : (decide (x + ij.1 < BOARD_WIDTH) && decide (pieceCell piece ij.2 ij.1 ≠ 0))
          = false := by
        by_cases h2a : x + ij.1 < BOARD_WIDTH
        · have h2b : ¬ pieceCell piece ij.2 ij.1 ≠ 0 := fun hc => h2 ⟨h2a, hc⟩
          simp [h2b]
        · simp [h2a]
      rw [decide_eq_false h1, hab, Bool.false_and, Bool.false_or]

theorem pairList_bounds (piece : List (List Nat)) (ij : Nat × Nat) (h : ij ∈ pairList piece) :
    ij.1 < (piece.getD 0 []).length ∧ ij.2 < piece.length := by
  unfold pairList at h
  rw [List.mem_flatMap] at h
  obtain ⟨i, hi, hmem⟩ := h
  rw [List.mem_map] at hmem
  obtain ⟨j, hjm, hij⟩ := hmem
  rw [List.mem_range] at hi
  rw [List.mem_range] at hjm
  subst hij
  exact ⟨hi, hjm⟩

theorem pair00_mem (piece : List (List Nat)) (hw : 1 ≤ (piece.getD 0 []).length)
    (hl : 1 ≤ piece.length) : ((0, 0) : Nat × Nat) ∈ pairList piece := by
  unfold pairList
  rw [List.mem_flatMap]
  exact ⟨0, List.mem_range.mpr (by omega), List.mem_map.mpr
    ⟨0, List.mem_range.mpr (by omega), rfl⟩⟩

theorem scanGo_finds (b piece : List (List Nat)) (x : Nat) :
    ∀ ys : List Nat,
      (∀ y ∈ ys, anyCheck (pairList piece) (collideAt b piece x y) =
        some ((pairList piece).any (collideCond b piece x y))) →
      (∃ y ∈ ys, (pairList piece).any (collideCond b piece x y) = true) →
      ∃ y ∈ ys, scanGo b piece x ys = ScanResult.landed y := by
  intro ys
  induction ys with
  | nil =>
    rintro _ ⟨y, hy, _⟩
    exact absurd hy (List.not_mem_nil y)
  | cons y ys ih =>
    intro hall hex
    cases hA : (pairList piece).any (collideCond b piece x y) with
    | true =>
      refine ⟨y, List.mem_cons_self y ys, ?_⟩
      unfold scanGo
      rw [hall y (List.mem_cons_self y ys), hA]
    | false =>
      have hex' : ∃ y' ∈ ys, (pairList piece).any (collideCond b piece x y') = true := by
        obtain ⟨y', hy', ht⟩ := hex
        rcases List.mem_cons.mp hy' with h | h
        · subst h; rw [hA] at ht; exact absurd ht (by simp)
        · exact ⟨y', h, ht⟩
      obtain ⟨y', hy', hgo⟩ := ih (fun a ha => hall a (List.mem_cons_of_mem _ ha)) hex'
      refine ⟨y', List.mem_cons_of_mem _ hy', ?_⟩
      unfold scanGo
      rw [hall y (List.mem_cons_self y ys), hA]
      exact hgo

theorem scanLand_lands {b piece : List (List Nat)} (x : Nat)
    (hlen : b.length = BOARD_HEIGHT)
    (hrow : ∀ r, r < BOARD_HEIGHT → (b.getD r []).length = BOARD_WIDTH)
    (hl1 : 1 ≤ piece.length) (hl2 : piece.length ≤ BOARD_HEIGHT)
    (hw : 1 ≤ (piece.getD 0 []).length) :
    ∃ y, scanLand b piece x = ScanResult.landed y ∧ y + piece.length ≤ BOARD_HEIGHT := by
  have hBH : BOARD_HEIGHT = 22 := rfl
  have hall : ∀ y ∈ List.range (BOARD_HEIGHT + 1 - piece.length),
      anyCheck (pairList piece) (collideAt b piece x y) =
        some ((pairList piece).any (collideCond b piece x y)) := by
    intro y hy
    rw [List.mem_range] at hy
    exact anyCheck_eq_any _ _ _ (fun ij hij =>
      collideAt_some hlen hrow hy hl2 ij (pairList_bounds piece ij hij).2)
  have hex : ∃ y ∈ List.range (BOARD_HEIGHT + 1 - piece.length),
      (pairList piece).any (collideCond b piece x y) = true := by
    refine ⟨BOARD_HEIGHT - piece.length, List.mem_range.mpr (by omega), ?_⟩
    rw [List.any_eq_true]
    refine ⟨(0, 0), pair00_mem piece hw hl1, ?_⟩
    unfold collideCond
    simp
  obtain ⟨y, hy, hgo⟩ := scanGo_finds b piece x _ hall hex
  rw [List.mem_range] at hy
  exact ⟨y, hgo, by omega⟩

end DenisTetris

namespace DenisTetris

theorem getD_eraseIdx {α : Type} :
    ∀ (l : List α) (j m : Nat) (d : α),
      (l.eraseIdx j).getD m d = if m < j then l.getD m d else l.getD (m + 1) d := by
  intro l
  induction l with
  | nil =>
    intro j m d
    simp [List.eraseIdx]
  | cons a t ih =>
    intro j m d
    cases j with
    | zero => simp [List.eraseIdx]
    | succ j =>
      cases m with
      | zero => simp [List.eraseIdx]
      | succ m =>
        show (t.eraseIdx j).getD m d = _
        rw [ih j m d]
        by_cases h : m < j
        · rw [if_pos h, if_pos (by omega)]
          rfl
        · rw [if_neg h, if_neg (by omega)]
          rfl

theorem getD_replicate_zero (n c : Nat) : (List.replicate n (0 : Nat)).getD c 0 = 0 := by
  by_cases h : c < n
  · rw [List.getD_eq_getElem _ _ (by simpa using h)]
    simp
  · rw [List.getD_eq_default]
    simpa using Nat.le_of_not_lt h

theorem rowRead {cur : List (List Nat)} {j : Nat} (h : j < cur.length) :
    cur.get? j = some (cur.getD j []) := by
  rw [List.get?_eq_getElem?, List.getElem?_eq_getElem h, List.getD_eq_getElem _ _ h]

theorem clearGo_ok (b1 : List (List Nat)) :
    ∀ (n j : Nat) (cur : List (List Nat)) (cnt : Nat),
      j + n = BOARD_HEIGHT →
      cur.length = BOARD_HEIGHT →
      (∀ r, r < BOARD_HEIGHT → (cur.getD r []).length = BOARD_WIDTH) →
      (∀ k, j ≤ k → cur.getD k [] = b1.getD k []) →
      ∃ bf, clearGo (List.range' j n) (cur, cnt) =
          some (bf, cnt + (List.range' j n).countP (fun k => fullRow (b1.getD k []))) ∧
        bf.length = BOARD_HEIGHT ∧
        (∀ r, r < BOARD_HEIGHT → (bf.getD r []).length = BOARD_WIDTH) ∧
        ((∀ r c, cellAt cur r c ≤ 7) → ∀ r c, cellAt bf r c ≤ 7) := by
  intro n
  induction n with
  | zero =>
    intro j cur cnt _ h1 h2 _
    exact ⟨cur, by simp [clearGo], h1, h2, fun h => h⟩
  | succ n ih =>
    intro j cur cnt hj h1 h2 hinv
    have hBH : BOARD_HEIGHT = 22 := rfl
    have hjlt : j < cur.length := by omega
    have hrowj : cur.getD j [] = b1.getD j [] := hinv j (le_refl j)
    rw [List.range'_succ]
    have hstep : clearGo (j :: List.range' (j + 1) n) (cur, cnt) =
        (if fullRow (cur.getD j []) then
          clearGo (List.range' (j + 1) n)
            (List.replicate BOARD_WIDTH 0 :: cur.eraseIdx j, cnt + 1)
        else clearGo (List.range' (j + 1) n) (cur, cnt)) := by
      show (match cur.get? j with
        | none => none
        | some row =>
          if fullRow row then
            clearGo (List.range' (j + 1) n) (List.replicate BOARD_WIDTH 0 :: cur.eraseIdx j, cnt + 1)
          else clearGo (List.range' (j + 1) n) (cur, cnt)) = _
      rw [rowRead hjlt]
    have hcp : (j :: List.range' (j + 1) n).countP (fun k => fullRow (b1.getD k [])) =
        (List.range' (j + 1) n).countP (fun k => fullRow (b1.getD k [])) +
          if fullRow (b1.getD j []) then 1 else 0 := by
      rw [List.countP_cons]
    rw [hstep, hcp]
    by_cases hfull : fullRow (cur.getD j [])
    · rw [if_pos hfull]
      set cur' := List.replicate BOARD_WIDTH 0 :: cur.eraseIdx j with hcur'
      have hlen' : cur'.length = BOARD_HEIGHT := by
        have he : (cur.eraseIdx j).length = BOARD_HEIGHT - 1 := by
          rw [List.length_eraseIdx, if_pos hjlt, h1]
        rw [hcur', List.length_cons, he]
        decide
      have hrow' : ∀ r, r < BOARD_HEIGHT → (cur'.getD r []).length = BOARD_WIDTH := by
        intro r hr
        rw [hcur']
        cases r with
        | zero => simp
        | succ r =>
          show ((cur.eraseIdx j).getD r []).length = BOARD_WIDTH
          rw [getD_eraseIdx]
          by_cases h : r < j
          · rw [if_pos h]; exact h2 r (by omega)
          · rw [if_neg h]; exact h2 (r + 1) (by omega)
      have hinv' : ∀ k, j + 1 ≤ k → cur'.getD k [] = b1.getD k [] := by
        intro k hk
        rw [hcur']
        cases k with
        | zero => omega
        | succ k =>
          show (cur.eraseIdx j).getD k [] = b1.getD (k + 1) []
          rw [getD_eraseIdx, if_neg (by omega)]
          exact hinv (k + 1) (by omega)
      obtain ⟨bf, hbf, hb1, hb2, hb7⟩ := ih (j + 1) cur' (cnt + 1) (by omega) hlen' hrow' hinv'
      refine ⟨bf, ?_, hb1, hb2, ?_⟩
      · rw [hbf]
        rw [hrowj] at hfull
        rw [if_pos hfull]
        have harith : cnt + 1 + (List.range' (j + 1) n).countP (fun k => fullRow (b1.getD k []))
            = cnt + ((List.range' (j + 1) n).countP (fun k => fullRow (b1.getD k [])) + 1) := by
          omega
        rw [harith]
      · intro hle r c
        apply hb7
        intro r' c'
        rw [hcur']
        cases r' with
        | zero =>
          show cellAt (List.replicate BOARD_WIDTH 0 :: cur.eraseIdx j) 0 c' ≤ 7
          unfold cellAt
          show ((List.replicate BOARD_WIDTH (0 : Nat)).getD c' 0) ≤ 7
          rw [getD_replicate_zero]
          omega
        | succ r' =>
          show cellAt (List.replicate BOARD_WIDTH 0 :: cur.eraseIdx j) (r' + 1) c' ≤ 7
          unfold cellAt
          show ((cur.eraseIdx j).getD r' []).getD c' 0 ≤ 7
          rw [getD_eraseIdx]
          by_cases h : r' < j
          · rw [if_pos h]; exact hle r' c'
          · rw [if_neg h]; exact hle (r' + 1) c'
    · rw [if_neg hfull]
      obtain ⟨bf, hbf, hb1, hb2, hb7⟩ := ih (j + 1) cur cnt (by omega) h1 h2
        (fun k hk => hinv k (by omega))
      refine ⟨bf, ?_, hb1, hb2, hb7⟩
      rw [hbf]
      rw [hrowj] at hfull
      rw [if_neg hfull]
      simp

theorem countP_range_getD (p : List Nat → Bool) :
    ∀ l : List (List Nat),
      (List.range l.length).countP (fun k => p (l.getD k [])) = l.countP p := by
  intro l
  induction l with
  | nil => rfl
  | cons a t ih =>
    show (List.range (t.length + 1)).countP _ = _
    rw [List.range_succ_eq_map, List.countP_cons, List.countP_map, List.countP_cons]
    have hcomp : ((fun k => p ((a :: t).getD k [])) ∘ Nat.succ) = (fun k => p (t.getD k [])) := by
      funext k
      rfl
    rw [hcomp, ih]
    rfl

theorem clearLines_ok (b1 : List (List Nat)) (h1 : b1.length = BOARD_HEIGHT)
    (h2 : ∀ r, r < BOARD_HEIGHT → (b1.getD r []).length = BOARD_WIDTH) :
    ∃ bf, clearLines b1 = some (bf, b1.countP fullRow) ∧
      bf.length = BOARD_HEIGHT ∧
      (∀ r, r < BOARD_HEIGHT → (bf.getD r []).length = BOARD_WIDTH) ∧
      ((∀ r c, cellAt b1 r c ≤ 7) → ∀ r c, cellAt bf r c ≤ 7) := by
  obtain ⟨bf, hbf, hb1', hb2', hb7'⟩ :=
    clearGo_ok b1 BOARD_HEIGHT 0 b1 0 (by omega) h1 h2 (fun k _ => rfl)
  refine ⟨bf, ?_, hb1', hb2', hb7'⟩
  unfold clearLines
  rw [show List.range BOARD_HEIGHT = List.range' 0 BOARD_HEIGHT from List.range_eq_range' _]
  rw [hbf]
  have : (List.range' 0 BOARD_HEIGHT).countP (fun k => fullRow (b1.getD k [])) =
      b1.countP fullRow := by
    rw [← List.range_eq_range']
    rw [show BOARD_HEIGHT = b1.length from h1.symm]
    exact countP_range_getD fullRow b1
  rw [this]
  simp

theorem gameOverCheck_eq {b : List (List Nat)} (h1 : b.length = BOARD_HEIGHT)
    (h2 : ∀ r, r < BOARD_HEIGHT → (b.getD r []).length = BOARD_WIDTH) :
    gameOverCheck b = some (topTwoOccupied b) := by
  unfold gameOverCheck topTwoOccupied
  apply anyCheck_eq_any
  intro i hi
  rw [List.mem_range] at hi
  simp only [readCell_in h1 h2 (show (0 : Nat) < BOARD_HEIGHT by decide) hi,
    readCell_in h1 h2 (show (1 : Nat) < BOARD_HEIGHT by decide) hi]
  by_cases h0 : cellAt b 0 i ≠ 0
  · simp [h0]
  · simp only [if_neg h0]
    rw [decide_eq_false h0, Bool.false_or]

end DenisTetris

namespace DenisTetris

theorem pieceShape_bounds : ∀ pid < 8, ∀ rot < 4,
    1 ≤ (pieceShape pid rot).length ∧ (pieceShape pid rot).length ≤ 4 ∧
    1 ≤ ((pieceShape pid rot).getD 0 []).length ∧
    ((pieceShape pid rot).getD 0 []).length ≤ 4 := by decide

theorem pieceCell_bounded : ∀ pid < 8, ∀ rot < 4, ∀ j < 4, ∀ i < 4,
    pieceCell (pieceShape pid rot) j i ≤ 7 := by decide

theorem pieceRow_len : ∀ pid < 8, ∀ rot < 4, ∀ j < 4,
    ((pieceShape pid rot).getD j []).length ≤ 4 := by decide

theorem pieceCell_le7 (pid rot j i : Nat) (h2 : pid < 8) (hrot : rot < 4) :
    pieceCell (pieceShape pid rot) j i ≤ 7 := by
  by_cases hj : j < 4
  · by_cases hi : i < 4
    · exact pieceCell_bounded pid h2 rot hrot j hj i hi
    · unfold pieceCell
      rw [List.getD_eq_default _ _ (le_trans (pieceRow_len pid h2 rot hrot j hj) (by omega))]
      omega
  · unfold pieceCell
    have hlen : (pieceShape pid rot).length ≤ j :=
      le_trans (pieceShape_bounds pid h2 rot hrot).2.1 (by omega)
    rw [List.getD_eq_default _ _ hlen]
    show ([] : List Nat).getD i 0 ≤ 7
    simp

theorem selStage_spec (p : Position) (swap gen : Bool) (r1 r2 : List Nat)
    (hlen1 : 1 ≤ p.next_pieces.length)
    (hlen2 : swap = true → p.pocket = none → gen = false → 2 ≤ p.next_pieces.length) :
    ∃ pid cur q bag pk, selStage p swap gen r1 r2 = some (pid, cur, q, bag, pk) ∧
      ((swap = false ∧ pid = p.current_piece) ∨
        (swap = true ∧ p.pocket = some pid) ∨
        (swap = true ∧ p.pocket = none ∧ p.next_pieces.head? = some pid)) := by
  cases hq : p.next_pieces with
  | nil => rw [hq] at hlen1; exact absurd hlen1 (by simp)
  | cons c1 q1 =>
    cases swap with
    | false =>
      refine ⟨p.current_piece, c1, (if gen then q1 ++ [(random_piece p.bag r1).1] else q1),
        (if gen then (random_piece p.bag r1).2 else p.bag), p.pocket, ?_, Or.inl ⟨rfl, rfl⟩⟩
      simp [selStage, hq]
    | true =>
      cases hpk : p.pocket with
      | some pk0 =>
        refine ⟨pk0, c1, (if gen then q1 ++ [(random_piece p.bag r1).1] else q1),
          (if gen then (random_piece p.bag r1).2 else p.bag), some p.current_piece, ?_,
          Or.inr (Or.inl ⟨rfl, rfl⟩)⟩
        simp [selStage, hq, hpk]
      | none =>
        cases gen with
        | false =>
          cases q1 with
          | nil =>
            have := hlen2 rfl hpk rfl
            rw [hq] at this
            exact absurd this (by simp)
          | cons c2 q2 =>
            refine ⟨c1, c2, q2, p.bag, some p.current_piece, ?_,
              Or.inr (Or.inr ⟨rfl, rfl, rfl⟩)⟩
            simp [selStage, hq, hpk]
        | true =>
          cases q1 with
          | nil =>
            refine ⟨c1, (random_piece p.bag r1).1, [(random_piece p.bag r2).1],
              (random_piece p.bag r2).2, some p.current_piece, ?_,
              Or.inr (Or.inr ⟨rfl, rfl, rfl⟩)⟩
            simp [selStage, hq, hpk]
          | cons c2 q2 =>
            refine ⟨c1, c2, q2 ++ [(random_piece p.bag r1).1] ++ [(random_piece p.bag r2).1],
              (random_piece p.bag r2).2, some p.current_piece, ?_,
              Or.inr (Or.inr ⟨rfl, rfl, rfl⟩)⟩
            simp [selStage, hq, hpk]

end DenisTetris

namespace DenisTetris

theorem mem_gen_false_iff (p : Position) (c r : Nat) :
    (c, r, false) ∈ gen_legal_moves p ↔
      r < 4 ∧ c < BOARD_WIDTH + 1 - pieceWidth p.current_piece r := by
  cases hpk : p.pocket with
  | some pk =>
    simp [gen_legal_moves, hpk, List.mem_flatMap, List.mem_range, List.mem_append,
      List.mem_map, Prod.ext_iff]
    aesop
  | none =>
    cases hnp : p.next_pieces.head? with
    | some np =>
      simp [gen_legal_moves, hpk, hnp, List.mem_flatMap, List.mem_range, List.mem_append,
        List.mem_map, Prod.ext_iff]
      aesop
    | none =>
      simp [gen_legal_moves, hpk, hnp, List.mem_flatMap, List.mem_range, List.mem_append,
        List.mem_map, Prod.ext_iff]
      aesop

theorem mem_gen_true_iff (p : Position) (c r : Nat) :
    (c, r, true) ∈ gen_legal_moves p ↔
      r < 4 ∧ ∃ t, swapTarget p = some t ∧ c < BOARD_WIDTH + 1 - pieceWidth t r := by
  cases hpk : p.pocket with
  | some pk =>
    simp [gen_legal_moves, swapTarget, hpk, List.mem_flatMap, List.mem_range, List.mem_append,
      List.mem_map, Prod.ext_iff]
    aesop
  | none =>
    cases hnp : p.next_pieces.head? with
    | some np =>
      simp [gen_legal_moves, swapTarget, hpk, hnp, List.mem_flatMap, List.mem_range,
        List.mem_append, List.mem_map, Prod.ext_iff]
      aesop
    | none =>
      simp [gen_legal_moves, swapTarget, hpk, hnp, List.mem_flatMap, List.mem_range,
        List.mem_append, List.mem_map, Prod.ext_iff]

theorem pipeline_ok (p : Position) (x rot : Nat) (swap gen : Bool) (r1 r2 : List Nat)
    (pid cur : Nat) (q bag : List Nat) (pk : Option Nat)
    (hsel : selStage p swap gen r1 r2 = some (pid, cur, q, bag, pk))
    (hB : BoardOK p.board) (hpid1 : 1 ≤ pid) (hpid7 : pid ≤ 7) (hrot : rot < 4)
    (hx : x + pieceWidth pid rot ≤ BOARD_WIDTH) :
    ∃ y b1 b2,
      scanLand p.board (pieceShape pid rot) x = ScanResult.landed y ∧
      stampPiece p.board (pieceShape pid rot) x y = some b1 ∧
      StampLe p.board b1 ∧
      clearLines b1 = some (b2, b1.countP fullRow) ∧
      b2.length = BOARD_HEIGHT ∧
      (∀ r, r < BOARD_HEIGHT → (b2.getD r []).length = BOARD_WIDTH) ∧
      ((∀ r c, cellAt p.board r c ≤ 7) → ∀ r c, cellAt b2 r c ≤ 7) ∧
      apply_move p x rot swap gen r1 r2 =
        (if topTwoOccupied b2 then MoveResult.gameOver
          else MoveResult.ok
            { score := p.score + scoreFor (b1.countP fullRow), current_piece := cur,
              next_pieces := q, pocket := pk, bag := bag,
              lines := p.lines + b1.countP fullRow, board := b2 }) := by
  have hBH : BOARD_HEIGHT = 22 := rfl
  have hBW : BOARD_WIDTH = 10 := rfl
  have hlen : p.board.length = BOARD_HEIGHT := hB.1
  have hrow : ∀ r, r < BOARD_HEIGHT → (p.board.getD r []).length = BOARD_WIDTH :=
    fun r hr => boardOK_rowLen hB hr
  have hbounds := pieceShape_bounds pid (by omega) rot hrot
  obtain ⟨hl1, hl4, hw1, hw4⟩ := hbounds
  obtain ⟨y, hscan, hy⟩ := scanLand_lands x hlen hrow hl1 (by omega) hw1
  have hpairs : ∀ ij ∈ pairList (pieceShape pid rot),
      y + ij.2 < BOARD_HEIGHT ∧ x + ij.1 < BOARD_WIDTH := by
    intro ij hij
    obtain ⟨hi, hj⟩ := pairList_bounds _ ij hij
    unfold pieceWidth at hx
    constructor
    · omega
    · omega
  obtain ⟨b1, hstamp, hb1len, hb1row, hb1P⟩ :=
    stampGo_ok (pieceShape pid rot) x y
      (fun j i => pieceCell_le7 pid rot j i (by omega) hrot)
      (pairList (pieceShape pid rot)) p.board hlen hrow hpairs
  have hstampP : stampPiece p.board (pieceShape pid rot) x y = some b1 := hstamp
  obtain ⟨b2, hclear, hb2len, hb2row, hb2le⟩ := clearLines_ok b1 hb1len hb1row
  have hcheck : gameOverCheck b2 = some (topTwoOccupied b2) := gameOverCheck_eq hb2len hb2row
  refine ⟨y, b1, b2, hscan, hstampP, hb1P, hclear, hb2len, hb2row, ?_, ?_⟩
  · intro h7
    apply hb2le
    intro r c
    rcases hb1P r c with he | ⟨_, _, hle⟩
    · rw [he]; exact h7 r c
    · exact hle
  · unfold apply_move
    rw [hsel]
    show dropPiece p.board p.score p.lines (pieceShape pid rot) x cur q bag pk = _
    unfold dropPiece
    simp only [hscan, hstampP, hclear, hcheck]
    cases htop : topTwoOccupied b2 with
    | true => rw [if_pos rfl]
    | false => rw [if_neg (by simp)]

end DenisTetris

namespace DenisTetris

theorem boardOK_of_index {b : List (List Nat)} (hlen : b.length = BOARD_HEIGHT)
    (hrow : ∀ r, r < BOARD_HEIGHT → (b.getD r []).length = BOARD_WIDTH) : BoardOK b := by
  refine ⟨hlen, ?_⟩
  intro row hrowmem
  obtain ⟨r, hr, hget⟩ := List.getElem_of_mem hrowmem
  have hr' : r < BOARD_HEIGHT := by omega
  rw [← hget, ← List.getD_eq_getElem b [] hr]
  exact hrow r hr'

theorem cellAt_le7_of_cellsOK {b : List (List Nat)} (h : CellsOK b) (r c : Nat) :
    cellAt b r c ≤ 7 := by
  unfold cellAt
  by_cases hr : r < b.length
  · have hrow : b[r] ∈ b := List.getElem_mem hr
    rw [List.getD_eq_getElem b [] hr]
    by_cases hc : c < b[r].length
    · rw [List.getD_eq_getElem _ _ hc]
      exact h _ hrow _ (List.getElem_mem hc)
    · rw [List.getD_eq_default _ _ (Nat.le_of_not_lt hc)]
      omega
  · rw [List.getD_eq_default _ _ (Nat.le_of_not_lt hr)]
    show ([] : List Nat).getD c 0 ≤ 7
    simp

theorem cellsOK_of_cellAt {b : List (List Nat)} (h : ∀ r c, cellAt b r c ≤ 7) : CellsOK b := by
  intro row hrow v hv
  obtain ⟨r, hr, hgetr⟩ := List.getElem_of_mem hrow
  obtain ⟨c, hc, hgetc⟩ := List.getElem_of_mem hv
  have := h r c
  unfold cellAt at this
  rw [List.getD_eq_getElem b [] hr, hgetr, List.getD_eq_getElem _ _ hc, hgetc] at this
  exact this

theorem topTwo_false_iff (b : List (List Nat)) :
    topTwoOccupied b = false ↔
      ∀ i, i < BOARD_WIDTH → cellAt b 0 i = 0 ∧ cellAt b 1 i = 0 := by
  unfold topTwoOccupied
  rw [← Bool.not_eq_true, List.any_eq_true]
  constructor
  · intro h i hi
    constructor
    · by_contra hc
      exact h ⟨i, List.mem_range.mpr hi, by simp [hc]⟩
    · by_contra hc
      exact h ⟨i, List.mem_range.mpr hi, by simp [hc]⟩
  · rintro h ⟨i, hi, hcond⟩
    rw [List.mem_range] at hi
    obtain ⟨h0, h1⟩ := h i hi
    rw [decide_eq_false (by simp [h0] : ¬ cellAt b 0 i ≠ 0),
      decide_eq_false (by simp [h1] : ¬ cellAt b 1 i ≠ 0)] at hcond
    exact absurd hcond (by simp)

theorem move_fits (p : Position) (x rot : Nat) (swp : Bool)
    (hcur : 1 ≤ p.current_piece ∧ p.current_piece ≤ 7)
    (hpk : ∀ t, p.pocket = some t → 1 ≤ t ∧ t ≤ 7)
    (hq : ∀ t ∈ p.next_pieces, 1 ≤ t ∧ t ≤ 7)
    (hmem : (x, rot, swp) ∈ gen_legal_moves p)
    (pid : Nat)
    (hdisj : (swp = false ∧ pid = p.current_piece) ∨ (swp = true ∧ p.pocket = some pid) ∨
      (swp = true ∧ p.pocket = none ∧ p.next_pieces.head? = some pid)) :
    (1 ≤ pid ∧ pid ≤ 7) ∧ rot < 4 ∧ x + pieceWidth pid rot ≤ BOARD_WIDTH := by
  have hBW : BOARD_WIDTH = 10 := rfl
  rcases hdisj with ⟨hs, hp⟩ | ⟨hs, hp⟩ | ⟨hs, hp, hh⟩
  · subst hs
    subst hp
    obtain ⟨hrot, hx⟩ := (mem_gen_false_iff p x rot).mp hmem
    have hw := (pieceShape_bounds p.current_piece (by omega) rot hrot).2.2
    refine ⟨hcur, hrot, ?_⟩
    unfold pieceWidth at hx ⊢
    omega
  · subst hs
    obtain ⟨hrot, t, hst, hx⟩ := (mem_gen_true_iff p x rot).mp hmem
    have ht : t = pid := by
      unfold swapTarget at hst
      rw [hp] at hst
      exact (Option.some.injEq _ _ ▸ hst).symm
    subst ht
    have hpid := hpk t hp
    have hw := (pieceShape_bounds t (by omega) rot hrot).2.2
    refine ⟨hpid, hrot, ?_⟩
    unfold pieceWidth at hx ⊢
    omega
  · subst hs
    obtain ⟨hrot, t, hst, hx⟩ := (mem_gen_true_iff p x rot).mp hmem
    have ht : t = pid := by
      unfold swapTarget at hst
      rw [hp] at hst
      rw [hh] at hst
      exact (Option.some.injEq _ _ ▸ hst).symm
    subst ht
    have hpid := hq t (List.mem_of_mem_head? hh)
    have hw := (pieceShape_bounds t (by omega) rot hrot).2.2
    refine ⟨hpid, hrot, ?_⟩
    unfold pieceWidth at hx ⊢
    omega

end DenisTetris

namespace DenisTetris

/-- Claim C1: for a well-formed position and a move drawn from
`gen_legal_moves` (with a queue long enough for the unconditional pops),
`apply_move` runs the landing/stamp/clear pipeline to completion and
returns a new Position exactly when, after placement and line clearing,
every cell of rows 0 and 1 is empty; when some such cell is occupied it
returns `gameOver` (Rust `None`) and no Position is produced.  The
`if topTwoOccupied` equation shows this is the sole game-over
condition: no other branch of the pipeline yields `gameOver`. -/
theorem claim_C1 (p : Position) (x rot : Nat) (swp gen : Bool) (r1 r2 : List Nat)
    (hB : BoardOK p.board)
    (hcur : 1 ≤ p.current_piece ∧ p.current_piece ≤ 7)
    (hpk : ∀ t, p.pocket = some t → 1 ≤ t ∧ t ≤ 7)
    (hq : ∀ t ∈ p.next_pieces, 1 ≤ t ∧ t ≤ 7)
    (hmem : (x, rot, swp) ∈ gen_legal_moves p)
    (hlen1 : 1 ≤ p.next_pieces.length)
    (hlen2 : swp = true → p.pocket = none → gen = false → 2 ≤ p.next_pieces.length) :
    ∃ pid cur q bag pk y b1 b2,
      selStage p swp gen r1 r2 = some (pid, cur, q, bag, pk) ∧
      scanLand p.board (pieceShape pid rot) x = ScanResult.landed y ∧
      stampPiece p.board (pieceShape pid rot) x y = some b1 ∧
      clearLines b1 = some (b2, b1.countP fullRow) ∧
      apply_move p x rot swp gen r1 r2 =
        (if topTwoOccupied b2 then MoveResult.gameOver
          else MoveResult.ok
            { score := p.score + scoreFor (b1.countP fullRow), current_piece := cur,
              next_pieces := q, pocket := pk, bag := bag,
              lines := p.lines + b1.countP fullRow, board := b2 }) ∧
      (topTwoOccupied b2 = false ↔
        ∀ i, i < BOARD_WIDTH → cellAt b2 0 i = 0 ∧ cellAt b2 1 i = 0) ∧
      (∀ p', apply_move p x rot swp gen r1 r2 = MoveResult.ok p' →
        p'.board = b2 ∧ ∀ i, i < BOARD_WIDTH → cellAt p'.board 0 i = 0 ∧ cellAt p'.board 1 i = 0) := by
  obtain ⟨pid, cur, q, bag, pk, hsel, hdisj⟩ := selStage_spec p swp gen r1 r2 hlen1 hlen2
  obtain ⟨hpid, hrot, hx⟩ := move_fits p x rot swp hcur hpk hq hmem pid hdisj
  obtain ⟨y, b1, b2, hscan, hstamp, hP, hclear, hb2len, hb2row, hb2le, happly⟩ :=
    pipeline_ok p x rot swp gen r1 r2 pid cur q bag pk hsel hB hpid.1 hpid.2 hrot hx
  refine ⟨pid, cur, q, bag, pk, y, b1, b2, hsel, hscan, hstamp, hclear, happly,
    topTwo_false_iff b2, ?_⟩
  intro p' hok
  rw [happly] at hok
  by_cases htop : topTwoOccupied b2 = true
  · rw [if_pos htop] at hok
    exact absurd hok (by simp)
  · rw [if_neg htop] at hok
    rw [MoveResult.ok.injEq] at hok
    have hb : p'.board = b2 := congrArg Position.board hok.symm
    refine ⟨hb, ?_⟩
    rw [hb]
    exact (topTwo_false_iff b2).mp (Bool.not_eq_true _ ▸ htop)

/-- Claim C2 (amended): when a placement completes exactly `k` full
rows in one `apply_move` call, the returned Position's score grows by
40, 100, 300, 1200 for `k` = 1, 2, 3, 4 and its `lines` counter by
`k`; for `k = 0` both are unchanged.  Amendment forced by the
counterexample: for `k ≥ 5` (possible only for injected boards already
containing full rows) the score still grows by 0 but `lines` grows by
`k` – it is not unchanged. -/
theorem claim_C2 (p : Position) (x rot : Nat) (swp gen : Bool) (r1 r2 : List Nat)
    (hB : BoardOK p.board)
    (hcur : 1 ≤ p.current_piece ∧ p.current_piece ≤ 7)
    (hpk : ∀ t, p.pocket = some t → 1 ≤ t ∧ t ≤ 7)
    (hq : ∀ t ∈ p.next_pieces, 1 ≤ t ∧ t ≤ 7)
    (hmem : (x, rot, swp) ∈ gen_legal_moves p)
    (hlen1 : 1 ≤ p.next_pieces.length)
    (hlen2 : swp = true → p.pocket = none → gen = false → 2 ≤ p.next_pieces.length) :
    ∃ pid cur q bag pk y b1,
      selStage p swp gen r1 r2 = some (pid, cur, q, bag, pk) ∧
      scanLand p.board (pieceShape pid rot) x = ScanResult.landed y ∧
      stampPiece p.board (pieceShape pid rot) x y = some b1 ∧
      (∀ p', apply_move p x rot swp gen r1 r2 = MoveResult.ok p' →
        p'.lines = p.lines + b1.countP fullRow ∧
        p'.score = p.score + scoreFor (b1.countP fullRow)) ∧
      scoreFor 0 = 0 ∧ scoreFor 1 = 40 ∧ scoreFor 2 = 100 ∧ scoreFor 3 = 300 ∧
      scoreFor 4 = 1200 ∧ (∀ k, 5 ≤ k → scoreFor k = 0) := by
  obtain ⟨pid, cur, q, bag, pk, hsel, hdisj⟩ := selStage_spec p swp gen r1 r2 hlen1 hlen2
  obtain ⟨hpid, hrot, hx⟩ := move_fits p x rot swp hcur hpk hq hmem pid hdisj
  obtain ⟨y, b1, b2, hscan, hstamp, hP, hclear, hb2len, hb2row, hb2le, happly⟩ :=
    pipeline_ok p x rot swp gen r1 r2 pid cur q bag pk hsel hB hpid.1 hpid.2 hrot hx
  refine ⟨pid, cur, q, bag, pk, y, b1, hsel, hscan, hstamp, ?_, rfl, rfl, rfl, rfl, rfl, ?_⟩
  · intro p' hok
    rw [happly] at hok
    by_cases htop : topTwoOccupied b2 = true
    · rw [if_pos htop] at hok
      exact absurd hok (by simp)
    · rw [if_neg htop] at hok
      rw [MoveResult.ok.injEq] at hok
      exact ⟨congrArg Position.lines hok.symm, congrArg Position.score hok.symm⟩
  · intro k hk
    match k, hk with
    | (n + 5), _ => rfl

/-- Claim C6: for a well-formed 22×10 position with cell codes in
`0..=7` and a move from `gen_legal_moves`, `apply_move` never panics
(all board indexing of the checked embedding stays in range, including
the collision look-ahead one row below the piece, which is only read
when `y < H - size_y` so that `j + y + 1 ≤ H - 1`); stamping writes a
piece code only into cells that were empty and never changes an
already-occupied cell; and any returned Position's board is again
exactly 22×10 with cell codes in `0..=7`. -/
theorem claim_C6 (p : Position) (x rot : Nat) (swp gen : Bool) (r1 r2 : List Nat)
    (hB : BoardOK p.board) (hcells : CellsOK p.board)
    (hcur : 1 ≤ p.current_piece ∧ p.current_piece ≤ 7)
    (hpk : ∀ t, p.pocket = some t → 1 ≤ t ∧ t ≤ 7)
    (hq : ∀ t ∈ p.next_pieces, 1 ≤ t ∧ t ≤ 7)
    (hmem : (x, rot, swp) ∈ gen_legal_moves p)
    (hlen1 : 1 ≤ p.next_pieces.length)
    (hlen2 : swp = true → p.pocket = none → gen = false → 2 ≤ p.next_pieces.length) :
    apply_move p x rot swp gen r1 r2 ≠ MoveResult.panic ∧
    (∃ pid cur q bag pk y b1,
      selStage p swp gen r1 r2 = some (pid, cur, q, bag, pk) ∧
      scanLand p.board (pieceShape pid rot) x = ScanResult.landed y ∧
      stampPiece p.board (pieceShape pid rot) x y = some b1 ∧
      (∀ r c, cellAt p.board r c ≠ 0 → cellAt b1 r c = cellAt p.board r c) ∧
      (∀ r c, cellAt b1 r c ≠ cellAt p.board r c →
        cellAt p.board r c = 0 ∧ cellAt b1 r c ≠ 0 ∧ cellAt b1 r c ≤ 7)) ∧
    (∀ p', apply_move p x rot swp gen r1 r2 = MoveResult.ok p' →
      BoardOK p'.board ∧ CellsOK p'.board) := by
  obtain ⟨pid, cur, q, bag, pk, hsel, hdisj⟩ := selStage_spec p swp gen r1 r2 hlen1 hlen2
  obtain ⟨hpid, hrot, hx⟩ := move_fits p x rot swp hcur hpk hq hmem pid hdisj
  obtain ⟨y, b1, b2, hscan, hstamp, hP, hclear, hb2len, hb2row, hb2le, happly⟩ :=
    pipeline_ok p x rot swp gen r1 r2 pid cur q bag pk hsel hB hpid.1 hpid.2 hrot hx
  refine ⟨?_, ⟨pid, cur, q, bag, pk, y, b1, hsel, hscan, hstamp, ?_, ?_⟩, ?_⟩
  · intro hpanic
    rw [happly] at hpanic
    by_cases htop : topTwoOccupied b2 = true
    · rw [if_pos htop] at hpanic
      exact absurd hpanic (by simp)
    · rw [if_neg htop] at hpanic
      exact absurd hpanic (by simp)
  · intro r c hne
    rcases hP r c with he | ⟨h0, _, _⟩
    · exact he
    · exact absurd h0 hne
  · intro r c hne
    rcases hP r c with he | hdisc
    · exact absurd he hne
    · exact hdisc
  · intro p' hok
    rw [happly] at hok
    by_cases htop : topTwoOccupied b2 = true
    · rw [if_pos htop] at hok
      exact absurd hok (by simp)
    · rw [if_neg htop] at hok
      rw [MoveResult.ok.injEq] at hok
      have hb : p'.board = b2 := congrArg Position.board hok.symm
      rw [hb]
      refine ⟨boardOK_of_index hb2len hb2row, ?_⟩
      exact cellsOK_of_cellAt (hb2le (cellAt_le7_of_cellsOK hcells))

/-- Claim C9 (amended): `apply_move` is partial in the queue.  An
empty queue always panics on the first `pop_front().unwrap()`; a
singleton queue panics in the first-hold case only when
`regenerateNext = false` (with `regenerateNext = true` the fresh draw
is appended before the second pop, which then succeeds – the
counterexample); and whenever the queue has length ≥ 1 (≥ 2 for the
first-hold case without regeneration) the removals succeed:
`selStage`, the stage of `apply_move` performing the pops, does not
reach its panic branches. -/
theorem claim_C9 (p : Position) (x rot : Nat) (swp gen : Bool) (r1 r2 : List Nat) :
    (p.next_pieces = [] → apply_move p x rot swp gen r1 r2 = MoveResult.panic) ∧
    (∀ c1, p.next_pieces = [c1] → swp = true → p.pocket = none → gen = false →
      apply_move p x rot swp gen r1 r2 = MoveResult.panic) ∧
    (1 ≤ p.next_pieces.length →
      (swp = true → p.pocket = none → gen = false → 2 ≤ p.next_pieces.length) →
      selStage p swp gen r1 r2 ≠ none) := by
  refine ⟨?_, ?_, ?_⟩
  · intro h
    simp [apply_move, selStage, h]
  · intro c1 h hs hp hg
    subst hs; subst hg
    simp [apply_move, selStage, h, hp]
  · intro hlen1 hlen2
    obtain ⟨pid, cur, q, bag, pk, hsel, _⟩ := selStage_spec p swp gen r1 r2 hlen1 hlen2
    rw [hsel]
    simp

end DenisTetris

namespace DenisTetris

theorem sum_map_ite_one {α : Type} (l : List α) (pr : α → Prop) [DecidablePred pr] :
    (l.map (fun a => if pr a then 1 else 0)).sum = l.countP (fun a => decide (pr a)) := by
  induction l with
  | nil => rfl
  | cons a t ih =>
    rw [List.map_cons, List.sum_cons, List.countP_cons, ih]
    by_cases h : pr a
    · simp [h]
      omega
    · simp [h]

theorem heightOf_eq_fill (b : List (List Nat)) (x : Nat) :
    heightOf b x = fillCountBelowSpawn b x := by
  unfold heightOf fillCountBelowSpawn
  rw [sum_map_ite_one (List.range' 1 (BOARD_HEIGHT - 1)) (fun y => cellAt b y x ≠ 0)]
  rw [show List.range BOARD_HEIGHT = 0 :: List.range' 1 (BOARD_HEIGHT - 1) from by
    rw [List.range_eq_range']
    rfl]
  rw [List.countP_cons]
  have h0 : (decide (1 ≤ 0 ∧ cellAt b 0 x ≠ 0)) = false := by simp
  rw [h0]
  have hcongr : (List.range' 1 (BOARD_HEIGHT - 1)).countP
      (fun y => decide (1 ≤ y ∧ cellAt b y x ≠ 0)) =
      (List.range' 1 (BOARD_HEIGHT - 1)).countP (fun y => decide (cellAt b y x ≠ 0)) := by
    apply List.countP_congr
    intro y hy
    have h1 : 1 ≤ y := (List.mem_range'_1.mp hy).1
    simp [h1]
  rw [hcongr]
  simp

/-- Claim C8 (amended): `features().bumpiness` is the sum over the 9
adjacent column pairs of the absolute difference of the columns' fill
counts, where a column's fill count is the number of filled cells in
rows `1..22` of that column – the spawn row 0 is excluded, which is the
amendment forced by the counterexample (the claim said "all 22
rows"). -/
theorem claim_C8 (p : Position) : (features p).bumpiness = bumpinessBelowSpawn p.board := by
  show bumpinessOf p.board = bumpinessBelowSpawn p.board
  unfold bumpinessOf bumpinessBelowSpawn
  apply congrArg
  apply List.map_congr_left
  intro i _
  rw [heightOf_eq_fill, heightOf_eq_fill]

theorem apply_move_ok_inv (p : Position) (x rot : Nat) (swap gen : Bool) (r1 r2 : List Nat)
    (p' : Position) (h : apply_move p x rot swap gen r1 r2 = MoveResult.ok p') :
    ∃ pid cur q bag pk y b1 b2 cnt,
      selStage p swap gen r1 r2 = some (pid, cur, q, bag, pk) ∧
      scanLand p.board (pieceShape pid rot) x = ScanResult.landed y ∧
      stampPiece p.board (pieceShape pid rot) x y = some b1 ∧
      clearLines b1 = some (b2, cnt) ∧
      gameOverCheck b2 = some false ∧
      p' = { score := p.score + scoreFor cnt, current_piece := cur, next_pieces := q,
             pocket := pk, bag := bag, lines := p.lines + cnt, board := b2 } := by
  unfold apply_move at h
  split at h
  · exact absurd h (by simp)
  · next pid cur q bag pk hsel =>
    unfold dropPiece at h
    split at h
    · exact absurd h (by simp)
    · exact absurd h (by simp)
    · next y hscan =>
      split at h
      · exact absurd h (by simp)
      · next b1 hst =>
        split at h
        · exact absurd h (by simp)
        · next b2 cnt hcl =>
          split at h
          · exact absurd h (by simp)
          · exact absurd h (by simp)
          · next hgo =>
            simp only [MoveResult.ok.injEq] at h
            exact ⟨pid, cur, q, bag, pk, y, b1, b2, cnt, hsel, hscan, hst, hcl, hgo, h.symm⟩

/-- Claim C3: hold semantics of `apply_move` with `useSwap = true`.
With an occupied pocket the held piece is the one placed, and the
previously-current piece becomes the new pocket contents.  With an
empty pocket the previously-current piece becomes the pocket, the piece
placed is the one at the front of `next_pieces`, and the queue advances
by one extra position: two pieces are consumed, one dropped (`c1`) and
one becoming the new `current_piece` (`c2`).  The third conjunct
transports the `selStage` bookkeeping onto any returned Position. -/
theorem claim_C3 (p : Position) (x rot : Nat) (gen : Bool) (r1 r2 : List Nat) :
    (∀ pk c1 q1, p.pocket = some pk → p.next_pieces = c1 :: q1 →
      selStage p true gen r1 r2 =
        some (pk, c1, (if gen then q1 ++ [(random_piece p.bag r1).1] else q1),
          (if gen then (random_piece p.bag r1).2 else p.bag), some p.current_piece))
    ∧ (∀ c1 c2 q1, p.pocket = none → p.next_pieces = c1 :: c2 :: q1 →
      selStage p true gen r1 r2 =
        some (c1, c2,
          (if gen then q1 ++ [(random_piece p.bag r1).1, (random_piece p.bag r2).1] else q1),
          (if gen then (random_piece p.bag r2).2 else p.bag), some p.current_piece))
    ∧ (∀ p', apply_move p x rot true gen r1 r2 = MoveResult.ok p' →
      ∃ pid cur q bag pk, selStage p true gen r1 r2 = some (pid, cur, q, bag, pk) ∧
        p'.current_piece = cur ∧ p'.next_pieces = q ∧ p'.pocket = pk ∧ p'.bag = bag) := by
  refine ⟨?_, ?_, ?_⟩
  · intro pk c1 q1 hpk hq
    simp only [selStage, hq, hpk]
    cases gen <;> simp
  · intro c1 c2 q1 hpk hq
    simp only [selStage, hq, hpk]
    cases gen <;> simp
  · intro p' h
    obtain ⟨pid, cur, q, bag, pk, y, b1, b2, cnt, hsel, _, _, _, _, hp'⟩ :=
      apply_move_ok_inv p x rot true gen r1 r2 p' h
    exact ⟨pid, cur, q, bag, pk, hsel, by rw [hp'], by rw [hp'], by rw [hp'], by rw [hp']⟩

/-- Claim C5: `gen_legal_moves` emits, for every rotation `r < 4`,
exactly the non-swap entries `(c, r, false)` with
`c < W + 1 - width(current, r)` and exactly the swap entries
`(c, r, true)` with the same column rule for the swap-target piece (the
pocket piece if present, otherwise the front of the queue); if there is
no swap-target piece at all, no swap entries are emitted. -/
theorem claim_C5 (p : Position) (_h1 : 1 ≤ p.current_piece) (_h2 : p.current_piece ≤ 7)
    (_h3 : ∀ t, swapTarget p = some t → 1 ≤ t ∧ t ≤ 7) :
    (∀ c r, (c, r, false) ∈ gen_legal_moves p ↔
      r < 4 ∧ c < BOARD_WIDTH + 1 - pieceWidth p.current_piece r)
    ∧ (∀ c r, (c, r, true) ∈ gen_legal_moves p ↔
      r < 4 ∧ ∃ t, swapTarget p = some t ∧ c < BOARD_WIDTH + 1 - pieceWidth t r)
    ∧ (swapTarget p = none → ∀ c r, (c, r, true) ∉ gen_legal_moves p) := by
  refine ⟨fun c r => mem_gen_false_iff p c r, fun c r => mem_gen_true_iff p c r, ?_⟩
  intro hnone c r hmem
  obtain ⟨_, t, hst, _⟩ := (mem_gen_true_iff p c r).mp hmem
  rw [hnone] at hst
  exact absurd hst (by simp)

end DenisTetris

namespace DenisTetris

/-- Claim C7: `features().holes` counts exactly the buried empty cells:
the board cells `(y, x)` with `y ≥ 1` that are empty and lie strictly
below at least one filled cell of the same column, each uninterrupted
buried run being counted in full (every cell of the run, not only its
first cell). -/
theorem claim_C7 (p : Position) : (features p).holes = specHoles p.board :=
  holesOf_eq_specHoles p.board

/-- Claim C10: `gen_legal_moves` never consults the board: two
positions that agree on `current_piece`, `pocket` and the front of
`next_pieces` produce identical move lists, whatever their boards,
scores, lines, or bags. -/
theorem claim_C10 (p q : Position) (h1 : p.current_piece = q.current_piece)
    (h2 : p.pocket = q.pocket) (h3 : p.next_pieces.head? = q.next_pieces.head?) :
    gen_legal_moves p = gen_legal_moves q := by
  unfold gen_legal_moves
  rw [h1, h2, h3]

/-- Claim C10 witness: a completely full board with different score,
lines and bag yields the same moves as an empty fresh board. -/
theorem claim_C10_witness : gen_legal_moves witPos = gen_legal_moves witPosFull :=
  claim_C10 witPos witPosFull rfl rfl rfl

/-- Claim C2 counterexample: a position whose board already holds five
full rows (reachable only through verbatim injection).  Dropping the
square piece completes `k = 5` rows in one `apply_move` call: the score
is unchanged but `lines` grows by 5, refuting "if k = 0 (or any other
k), score and lines are unchanged". -/
theorem claim_C2_counterexample :
    (0, 0, false) ∈ gen_legal_moves cexPos2 ∧
    ((stampPiece cexPos2.board (pieceShape 6 0) 0 15).bind clearLines).map Prod.snd =
      some 5 ∧
    resultScore (apply_move cexPos2 0 0 false false [] []) = some cexPos2.score ∧
    resultLines (apply_move cexPos2 0 0 false false [] []) = some 5 ∧
    cexPos2.lines = 0 := by
  decide

/-- Claim C4: evaluation at the failing input.  With `useSwap = true`,
an empty pocket, `regenerateNext = true` and `bag = [3]`, the two
pieces appended to the queue are both the id 3 – the second
`random_piece` call draws from the *original* bag again – and the
returned bag is empty: one removal for two appends, so the 7-bag
exactly-once guarantee is broken in this branch. -/
theorem claim_C4 :
    cexPos4.bag = [3] ∧ cexPos4.pocket = none ∧
    resultNext (apply_move cexPos4 3 0 true true [] []) = some [3, 3] ∧
    resultBag (apply_move cexPos4 3 0 true true [] []) = some [] := by
  decide

/-- Claim C8 counterexample: a board whose only filled cell is in the
spawn row 0.  The claimed all-22-rows fill counts give bumpiness 1, but
`features` scans only rows `1..22`, giving 0. -/
theorem claim_C8_counterexample :
    (features cexPos8).bumpiness ≠ bumpinessAllRows cexPos8.board := by
  decide

/-- Claim C9 counterexample: a singleton queue in the first-hold case
is *not* undefined when `regenerateNext = true` – the freshly drawn
piece is appended before the second pop, which therefore succeeds. -/
theorem claim_C9_counterexample :
    cexPos9.next_pieces.length = 1 ∧ cexPos9.pocket = none ∧
    apply_move cexPos9 0 0 true true [7, 6, 5, 4, 3, 2, 1] [7, 6, 5, 4, 3, 2, 1] ≠
      MoveResult.panic := by
  decide

/-- Claim C9 witness: an empty queue makes `apply_move` hit the
`pop_front().unwrap()` panic. -/
theorem claim_C9_witness :
    apply_move witPosEmptyQ 0 0 false false [] [] = MoveResult.panic :=
  (claim_C9 witPosEmptyQ 0 0 false false [] []).1 rfl

/-- Claim C3 witness: holding again with a non-empty pocket places the
held piece 2, moves the previously-current piece 1 to the pocket, and
advances the queue front 4 to be the new current piece. -/
theorem claim_C3_witness :
    selStage witPosPocket true false [] [] = some (2, 4, [], [6, 7], some 1) :=
  (claim_C3 witPosPocket 0 0 false [] []).1 2 4 [] rfl rfl

/-- Claim C5 witness: on a fresh position with the 3-wide J piece
current, column 8 at rotation 0 is a legal non-swap move exactly
because `8 < 10 + 1 - 3`. -/
theorem claim_C5_witness :
    (8, 0, false) ∈ gen_legal_moves witPos ↔
      (0 < 4 ∧ 8 < BOARD_WIDTH + 1 - pieceWidth witPos.current_piece 0) :=
  (claim_C5 witPos (by decide) (by decide)
    (by
      intro t h
      rw [show swapTarget witPos = some 2 from rfl, Option.some.injEq] at h
      subst h
      decide)).1 8 0

end DenisTetris

namespace DenisTetris

/-- Claim C1 witness: the pipeline characterization instantiated on a
fresh well-formed position with the non-swap move `(0, 0)`. -/
theorem claim_C1_witness :
    ∃ pid cur q bag pk y b1 b2,
      selStage witPos false false [] [] = some (pid, cur, q, bag, pk) ∧
      scanLand witPos.board (pieceShape pid 0) 0 = ScanResult.landed y ∧
      stampPiece witPos.board (pieceShape pid 0) 0 y = some b1 ∧
      clearLines b1 = some (b2, b1.countP fullRow) ∧
      apply_move witPos 0 0 false false [] [] =
        (if topTwoOccupied b2 then MoveResult.gameOver
          else MoveResult.ok
            { score := witPos.score + scoreFor (b1.countP fullRow), current_piece := cur,
              next_pieces := q, pocket := pk, bag := bag,
              lines := witPos.lines + b1.countP fullRow, board := b2 }) ∧
      (topTwoOccupied b2 = false ↔
        ∀ i, i < BOARD_WIDTH → cellAt b2 0 i = 0 ∧ cellAt b2 1 i = 0) ∧
      (∀ p', apply_move witPos 0 0 false false [] [] = MoveResult.ok p' →
        p'.board = b2 ∧
          ∀ i, i < BOARD_WIDTH → cellAt p'.board 0 i = 0 ∧ cellAt p'.board 1 i = 0) :=
  claim_C1 witPos 0 0 false false [] [] (by decide) (by decide)
    (fun t h => Option.noConfusion h) (by decide) (by decide) (by decide) (by decide)

/-- Claim C2 witness: the amended score/lines accounting instantiated
on the same fresh position and move. -/
theorem claim_C2_witness :
    ∃ pid cur q bag pk y b1,
      selStage witPos false false [] [] = some (pid, cur, q, bag, pk) ∧
      scanLand witPos.board (pieceShape pid 0) 0 = ScanResult.landed y ∧
      stampPiece witPos.board (pieceShape pid 0) 0 y = some b1 ∧
      (∀ p', apply_move witPos 0 0 false false [] [] = MoveResult.ok p' →
        p'.lines = witPos.lines + b1.countP fullRow ∧
        p'.score = witPos.score + scoreFor (b1.countP fullRow)) ∧
      scoreFor 0 = 0 ∧ scoreFor 1 = 40 ∧ scoreFor 2 = 100 ∧ scoreFor 3 = 300 ∧
      scoreFor 4 = 1200 ∧ (∀ k, 5 ≤ k → scoreFor k = 0) :=
  claim_C2 witPos 0 0 false false [] [] (by decide) (by decide)
    (fun t h => Option.noConfusion h) (by decide) (by decide) (by decide) (by decide)

/-- Claim C6 witness: the safety statement instantiated on the same
fresh position and move. -/
theorem claim_C6_witness :
    apply_move witPos 0 0 false false [] [] ≠ MoveResult.panic ∧
    (∃ pid cur q bag pk y b1,
      selStage witPos false false [] [] = some (pid, cur, q, bag, pk) ∧
      scanLand witPos.board (pieceShape pid 0) 0 = ScanResult.landed y ∧
      stampPiece witPos.board (pieceShape pid 0) 0 y = some b1 ∧
      (∀ r c, cellAt witPos.board r c ≠ 0 → cellAt b1 r c = cellAt witPos.board r c) ∧
      (∀ r c, cellAt b1 r c ≠ cellAt witPos.board r c →
        cellAt witPos.board r c = 0 ∧ cellAt b1 r c ≠ 0 ∧ cellAt b1 r c ≤ 7)) ∧
    (∀ p', apply_move witPos 0 0 false false [] [] = MoveResult.ok p' →
      BoardOK p'.board ∧ CellsOK p'.board) :=
  claim_C6 witPos 0 0 false false [] [] (by decide) (by decide) (by decide)
    (fun t h => Option.noConfusion h) (by decide) (by decide) (by decide) (by decide)

end DenisTetris
